import Mathlib

/-!
Verification of the joshlf/net user-space network stack.

Shallow embedding of the relevant Go source files:
  * `ip.go`                          : IPv4 addresses, subnets, `Equal` / `Has`
  * `internal/parse` (part_001)     : big-endian byte helpers
  * `tcp/header.go`                  : TCP/IPv4 header parse / write
  * `ipv4_host.go`                   : IPv4 ingress callback (delivery and forwarding)
  * `routing_table.go`               : routing table lookup
  * `tcp` host dispatch (part_007)  : four-tuple / two-tuple segment dispatch
  * `tcp` listener (part_014)       : bounded accept queue
  * `tcp/client.go`, `tcp/internal/timeout` : deadlines and timeout daemon state
  * `tcp/timeout.go`                 : the connection-owned timeouter heap
  * `tcp/internal/buffer` (part_011, buffer.go) : sparse read buffer

Go machine integers are modelled as `Nat` (with explicit `% 2 ^ 32` where
uint32 wrap-around matters); Go's `-1` index sentinels are modelled as
`Option Nat`; Go slices of bytes are `List Nat`; code paths that panic in Go
(nil dereference, out-of-range index) are modelled by `Option`/distinguished
results as documented at each definition.
-/

deriving instance DecidableEq for Except

namespace NetV

/-! ## ip.go : IPv4 addresses and subnets -/

/-- An IPv4 address: 4 bytes (`type IPv4 [4]byte`). -/
structure IPv4 where
  b0 : Nat
  b1 : Nat
  b2 : Nat
  b3 : Nat
deriving DecidableEq, Repr

/-- Byte-wise `addr[i] & mask[i]`, the loop body shared by `Equal` and `Has`. -/
def maskAddr (a m : IPv4) : IPv4 :=
  ⟨a.b0 &&& m.b0, a.b1 &&& m.b1, a.b2 &&& m.b2, a.b3 &&& m.b3⟩

/-- `type IPv4Subnet struct { Addr, Netmask IPv4 }`. -/
structure IPv4Subnet where
  Addr : IPv4
  Netmask : IPv4
deriving DecidableEq, Repr

/-- `func (sub IPv4Subnet) Equal(other IPv4Subnet) bool` (ip.go):
returns false if the netmasks differ, otherwise masks each address with its
own netmask and compares. -/
def IPv4Subnet.Equal (sub other : IPv4Subnet) : Bool :=
  if sub.Netmask ≠ other.Netmask then false
  else maskAddr sub.Addr sub.Netmask = maskAddr other.Addr other.Netmask

/-- `func (sub IPv4Subnet) Has(addr IPv4) bool` (ip.go): masks `addr` with
`sub.Netmask` and compares with the UNMASKED `sub.Addr`. -/
def IPv4Subnet.Has (sub : IPv4Subnet) (addr : IPv4) : Bool :=
  maskAddr addr sub.Netmask = sub.Addr

/-! ## internal/parse (part_001) : big-endian helpers

`GetBytes(b, n)` returns `(*b)[:n]` and advances; with `n` negative or larger
than `len(*b)` the Go slice expression panics. The Lean versions consume a
`List Nat` and return `none` exactly where the Go code panics (the TCP option
parser relies on `recover` to turn that panic into an error). -/

/-- `parse.GetByte`: reads one byte; `none` models the Go panic on an empty
slice. -/
def getByte : List Nat → Option (Nat × List Nat)
  | [] => none
  | x :: rest => some (x, rest)

/-- `parse.GetUint16` big endian. -/
def getUint16 : List Nat → Option (Nat × List Nat)
  | x0 :: x1 :: rest => some (x0 * 256 + x1, rest)
  | _ => none

/-- `parse.GetUint32` big endian. -/
def getUint32 : List Nat → Option (Nat × List Nat)
  | x0 :: x1 :: x2 :: x3 :: rest =>
      some (((x0 * 256 + x1) * 256 + x2) * 256 + x3, rest)
  | _ => none

/-- `parse.GetBytes(b, n)` used for skipping: Go computes `(*b)[n:]`, which
panics when `n < 0` or `n > len(*b)`. The argument is an `Int` because the
TCP option parser passes the possibly negative expression `2 - olen`. -/
def skipBytes (n : Int) (b : List Nat) : Option (List Nat) :=
  if n < 0 then none
  else if (b.length : Int) < n then none
  else some (b.drop n.toNat)

/-- `parse.PutUint16`: the two big-endian bytes of `n` (`byte(n>>8)`,
`byte(n)`). -/
def putUint16 (n : Nat) : List Nat :=
  [(n >>> 8) % 256, n % 256]

/-- `parse.PutUint32`: the four big-endian bytes of `n`. -/
def putUint32 (n : Nat) : List Nat :=
  [(n >>> 24) % 256, (n >>> 16) % 256, (n >>> 8) % 256, n % 256]

/-! ## tcp/header.go : TCP/IPv4 header codec -/

/-- `genericHeader` + the two ports of `tcpIPv4Header` (tcp/header.go).
`flags` is the 16-bit field whose low 9 bits are NS,CWR,ECE,URG,ACK,PSH,RST,
SYN,FIN (NS is bit 8 = `0x100`). -/
structure TcpIPv4Header where
  srcport : Nat
  dstport : Nat
  seq : Nat
  ack : Nat
  dataOff : Nat
  flags : Nat
  window : Nat
  checksum : Nat
  urgptr : Nat
  mss : Nat
  mssSet : Bool
deriving DecidableEq, Repr

/-- Option kinds recognised by the parser. -/
def optionTypeEnd : Nat := 0
def optionTypeNOP : Nat := 1
def optionTypeMSS : Nat := 2

/-- The option loop of `parseTCPIPv4Header` (tcp/header.go lines 78-97).
Iterates `for len(b) > 0`; kind 0 ends, kind 1 continues, kind 2 reads the
MSS, and any other kind is "skipped" via `parse.GetBytes(&b, 2-olen)` — note
the Go source really computes `2 - olen`, not `olen - 2`. A `none` result
models the recovered panic (`err = errors.New("malformed options")`).
Each iteration consumes at least one byte, so `b.length` bounds the fuel. -/
def parseOptions (fuel : Nat) (b : List Nat) (hdr : TcpIPv4Header) :
    Option TcpIPv4Header :=
  match fuel with
  | 0 => some hdr
  | fuel + 1 =>
    match b with
    | [] => some hdr
    | typ :: b =>
      if typ = optionTypeEnd then some hdr
      else if typ = optionTypeNOP then parseOptions fuel b hdr
      else if typ = optionTypeMSS then
        match getByte b with
        | none => none
        | some (_, b) =>
          match getUint16 b with
          | none => none
          | some (mss, b) =>
            parseOptions fuel b { hdr with mss := mss, mssSet := true }
      else
        match getByte b with
        | none => none
        | some (olen, b) =>
          match skipBytes (2 - (olen : Int)) b with
          | none => none
          | some b => parseOptions fuel b hdr

/-- `parseTCPIPv4Header` (tcp/header.go lines 39-100). Returns the parsed
header and the consumed length, or an error (`Except.error` covers both the
explicit `errors.Errorf` returns and the recovered option-parsing panic). -/
def parseTCPIPv4Header (b : List Nat) : Except String (TcpIPv4Header × Nat) :=
  if b.length < 20 then .error "invalid header length"
  else
    match b with
    | p0 :: p1 :: p2 :: p3 :: s0 :: s1 :: s2 :: s3 :: a0 :: a1 :: a2 :: a3 ::
      b12 :: b13 :: w0 :: w1 :: c0 :: c1 :: u0 :: u1 :: rest =>
      let hdr : TcpIPv4Header :=
        { srcport := p0 * 256 + p1
          dstport := p2 * 256 + p3
          seq := ((s0 * 256 + s1) * 256 + s2) * 256 + s3
          ack := ((a0 * 256 + a1) * 256 + a2) * 256 + a3
          dataOff := b12 >>> 5
          flags := ((b12 &&& 1) <<< 7) ||| b13
          window := w0 * 256 + w1
          checksum := c0 * 256 + c1
          urgptr := u0 * 256 + u1
          mss := 0
          mssSet := false }
      if 15 < hdr.dataOff then .error "invalid data offset"
      else if 5 < hdr.dataOff then
        let hdrlen := hdr.dataOff * 4
        if rest.length + 20 < hdrlen then .error "header length too short"
        else
          match parseOptions rest.length rest hdr with
          | none => .error "malformed options"
          | some hdr => .ok (hdr, hdrlen)
      else .ok (hdr, 20)
    | _ => .error "invalid header length"

/-- `writeTCPIPv4Header` (tcp/header.go lines 103-130). The Go function
mutates `hdr.dataOff` (5, or 6 when the MSS option is emitted) and fills the
caller's buffer; here it returns the mutated header together with the bytes
written (20 or 24 of them). -/
def writeTCPIPv4Header (hdr : TcpIPv4Header) : TcpIPv4Header × List Nat :=
  let dataOff := if hdr.mssSet then 6 else 5
  let hdr := { hdr with dataOff := dataOff }
  let byte12 := ((dataOff <<< 5) % 256) ||| ((hdr.flags >>> 8) % 256)
  let byte13 := hdr.flags % 256
  let fixed :=
    putUint16 hdr.srcport ++ putUint16 hdr.dstport ++
    putUint32 hdr.seq ++ putUint32 hdr.ack ++
    [byte12, byte13] ++
    putUint16 hdr.window ++ putUint16 hdr.checksum ++ putUint16 hdr.urgptr
  let options :=
    if hdr.mssSet then [optionTypeMSS, 4] ++ putUint16 hdr.mss else []
  (hdr, fixed ++ options)

/-! ## ipv4_host.go : IPv4 header codec, routing lookup, ingress callback -/

/-- `type ipv4Header struct` (ipv4_host.go). -/
structure Ipv4Header where
  version : Nat
  IHL : Nat
  DSCP : Nat
  ECN : Nat
  len : Nat
  id : Nat
  flags : Nat
  fragOff : Nat
  TTL : Nat
  proto : Nat
  checksum : Nat
  src : IPv4
  dst : IPv4
deriving DecidableEq, Repr

/-- `readIPv4Header` (ipv4_host.go lines 244-261); the Go function assumes
the buffer is long enough (its callers check), so `none` covers the
too-short case its doc comment leaves undefined. -/
def readIPv4Header : List Nat → Option Ipv4Header
  | b0 :: b1 :: l0 :: l1 :: i0 :: i1 :: b6 :: b7 :: ttl :: proto :: c0 :: c1 ::
    s0 :: s1 :: s2 :: s3 :: d0 :: d1 :: d2 :: d3 :: _ =>
    some { version := b0 >>> 4, IHL := b0 &&& 15,
           DSCP := b1 >>> 2, ECN := b1 &&& 3,
           len := l0 * 256 + l1, id := i0 * 256 + i1,
           flags := b6 >>> 5, fragOff := ((b6 &&& 31) <<< 8) ||| b7,
           TTL := ttl, proto := proto, checksum := c0 * 256 + c1,
           src := ⟨s0, s1, s2, s3⟩, dst := ⟨d0, d1, d2, d3⟩ }
  | _ => none

/-- `setTTL` (ipv4_host.go lines 266-268): patch byte 8 in place. -/
def setTTL (b : List Nat) (ttl : Nat) : List Nat :=
  b.set 8 ttl

/-- `routingTable.lookupDeviceRoute` (routing_table.go lines 221-228):
first device route whose subnet contains `addr`. Devices are identified by
opaque ids. -/
def lookupDeviceRoute (drs : List (IPv4Subnet × Nat)) (addr : IPv4) :
    Option Nat :=
  (drs.find? fun r => r.1.Has addr).map (·.2)

/-- `routingTable.Lookup` (routing_table.go lines 202-219): a matching
device route wins and routes directly to `addr`; otherwise the first
next-hop route whose subnet contains `addr` is resolved against the device
routes, failing if the next hop itself has no device route. -/
def rtLookup (routes : List (IPv4Subnet × IPv4)) (drs : List (IPv4Subnet × Nat))
    (addr : IPv4) : Option (IPv4 × Nat) :=
  match lookupDeviceRoute drs addr with
  | some dev => some (addr, dev)
  | none =>
    match routes.find? (fun r => r.1.Has addr) with
    | none => none
    | some r =>
      match lookupDeviceRoute drs r.2 with
      | none => none
      | some dev => some (r.2, dev)

/-- The state of an `ipv4Host` read by its ingress callback: registered
devices with their optional IPv4 address (`dev.IPv4()`), the protocols with
a registered upper-layer callback, the forwarding flag and the routing
table. -/
structure Ipv4HostState where
  devices : List (Nat × Option (IPv4 × IPv4))
  callbacks : List Nat
  forward : Bool
  routes : List (IPv4Subnet × IPv4)
  deviceRoutes : List (IPv4Subnet × Nat)

/-- The `us` loop of `ipv4Host.callback` (ipv4_host.go lines 174-181): does
any registered device own the destination address? -/
def isLocal (host : Ipv4HostState) (dst : IPv4) : Bool :=
  host.devices.any fun d =>
    match d.2 with
    | some (addr, _) => addr = dst
    | none => false

/-- What the ingress callback does with one datagram. -/
inductive IngressResult where
  | drop
  | deliver (proto : Nat) (payload : List Nat) (src dst : IPv4)
  | write (dev : Nat) (b : List Nat) (nexthop : IPv4)
deriving DecidableEq, Repr

/-- `ipv4Host.callback` (ipv4_host.go lines 156-207): length check, header
parse, total-length check, local delivery, or forwarding with the TTL byte
patched in place. -/
def ipv4Callback (host : Ipv4HostState) (b : List Nat) : IngressResult :=
  if b.length < 20 then .drop
  else
    match readIPv4Header b with
    | none => .drop
    | some hdr =>
      if hdr.len ≠ b.length then .drop
      else if isLocal host hdr.dst then
        if hdr.proto ∈ host.callbacks then
          .deliver hdr.proto (b.drop 20) hdr.src hdr.dst
        else .drop
      else if host.forward then
        if hdr.TTL < 2 then .drop
        else
          let b := setTTL b (hdr.TTL - 1)
          match rtLookup host.routes host.deviceRoutes hdr.dst with
          | none => .drop
          | some (nexthop, dev) => .write dev b nexthop
      else .drop

/-! ## tcp host dispatch (part_007) and listener (part_014) -/

/-- `ipv4FourTuple` (part_007). -/
structure FourTuple where
  src : IPv4
  srcport : Nat
  dst : IPv4
  dstport : Nat
deriving DecidableEq, Repr

/-- `ipv4TwoTuple` (part_007). -/
structure TwoTuple where
  addr : IPv4
  port : Nat
deriving DecidableEq, Repr

/-- The two-tuple of a segment's four-tuple
(`ipv4TwoTuple{addr: dst, port: hdr.dstport}`). -/
def twoOf (f : FourTuple) : TwoTuple :=
  ⟨f.dst, f.dstport⟩

/-- `const listenQueueLen = 1024` (part_014). -/
def listenQueueLen : Nat := 1024

/-- A `Listener`: the accept queue of connection ids. -/
structure ListenerState where
  conns : List Nat
deriving DecidableEq, Repr

/-- `Listener.accept` (part_014 lines 66-77): reject (`false`) when the
queue already holds `listenQueueLen` connections, otherwise append. -/
def listenerAccept (l : ListenerState) (conn : Nat) : Option ListenerState :=
  if listenQueueLen ≤ l.conns.length then none
  else some ⟨l.conns ++ [conn]⟩

/-- A `Conn` as seen by the dispatcher: an identity for the pointer and
whether its `statefn` field is set. The `&Conn{}` literal at part_007 line
106 leaves `statefn` nil; `newListenConn` (conn.go lines 67-78), which
would set it, is never called on this path. -/
structure ConnVal where
  id : Nat
  statefnSet : Bool
deriving DecidableEq, Repr

/-- The TCP `IPv4Host` maps guarded by its read-write lock (part_007):
connections by four-tuple, listeners by two-tuple. -/
structure TcpHostState where
  conns : List (FourTuple × ConnVal)
  listeners : List (TwoTuple × ListenerState)
deriving DecidableEq, Repr

/-- Association-list lookup, standing in for Go map indexing. -/
def alistFind (k : α) [DecidableEq α] (m : List (α × β)) : Option β :=
  (m.find? fun e => e.1 = k).map (·.2)

/-- Update the listener stored under `k`. -/
def alistSet (k : α) [DecidableEq α] (v : β) (m : List (α × β)) :
    List (α × β) :=
  m.map fun e => if e.1 = k then (k, v) else e

/-- One pass of `IPv4Host.handle` (part_007 lines 52-124). -/
inductive HandleStep where
  /-- the segment was handed to connection `c` (`conn.callback`, whose
  `statefn` is set). -/
  | delivered (st : TcpHostState) (c : Nat)
  /-- no listener under the shared lock: drop (line 67-71). -/
  | dropNoListener (st : TcpHostState)
  /-- the listener re-check failed and, because the `if !ok` block at lines
  95-103 has no `return`, control falls through to `listener.accept` with
  `listener == nil`: a nil-pointer dereference (Go runtime panic). -/
  | nilListenerPanic
  /-- the conns-map hit found a connection whose `statefn` is nil:
  `conn.callback` (conn.go line 80) runs `conn.statefn(conn, hdr, b)`,
  a nil-function-call runtime panic. This happens to the `&Conn{}` a
  successful accept inserts, on the restarted dispatch. -/
  | nilStatefnPanic
  /-- the accept queue was full: segment dropped, maps untouched
  (lines 108-114). -/
  | dropQueueFull (st : TcpHostState)
  /-- connection accepted and inserted; the code re-runs `handle` on the new
  state (lines 121-123). -/
  | restart (st : TcpHostState)
deriving DecidableEq, Repr

/-- `IPv4Host.handle`, one invocation. `stR` is the map contents observed
under the shared lock, `stW` the contents observed after the upgrade to the
exclusive lock (other tasks may run in between; sequential callers pass the
same state twice). `newConn` is the id for the `&Conn{}` the handler would
allocate. -/
def handleOnce (stR stW : TcpHostState) (four : FourTuple) (newConn : Nat) :
    HandleStep :=
  match alistFind four stR.conns with
  | some c => if c.statefnSet then .delivered stR c.id else .nilStatefnPanic
  | none =>
    match alistFind (twoOf four) stR.listeners with
    | none => .dropNoListener stR
    | some _ =>
      match alistFind four stW.conns with
      | some c =>
        if c.statefnSet then .delivered stW c.id else .nilStatefnPanic
      | none =>
        match alistFind (twoOf four) stW.listeners with
        | none => .nilListenerPanic
        | some l =>
          match listenerAccept l newConn with
          | none => .dropQueueFull stW
          | some l2 =>
            .restart
              { conns := (four, ⟨newConn, false⟩) :: stW.conns,
                listeners := alistSet (twoOf four) l2 stW.listeners }

/-- The tail-recursive restart of `handle` (line 123), run sequentially:
the re-invocation sees the maps it just wrote. Fuel bounds the recursion;
2 suffices because a restart always inserts the four-tuple first. -/
def handleSeq (fuel : Nat) (st : TcpHostState) (four : FourTuple)
    (newConn : Nat) : HandleStep :=
  match fuel with
  | 0 => .nilListenerPanic
  | fuel + 1 =>
    match handleOnce st st four newConn with
    | .restart st2 => handleSeq fuel st2 four newConn
    | r => r

/-! ## tcp/internal/timeout and tcp/client.go : deadlines

Monotonic instants are `Nat`s, with `0` standing for the zero `time.Time`
(the "deadline unset" sentinel checked by `t == (time.Time{})`). -/

/-- Which connection callback a scheduled timeout carries
(`readTimeoutCallback` / `writeTimeoutCallback`, tcp/client.go 136-137). -/
inductive CallbackTag where
  | readCB
  | writeCB
deriving DecidableEq, Repr

/-- One record in the `timeout.Daemon` heap: deadline, cancel flag,
callback. Records are identified by the id handed out at `AddTimeout`. -/
structure TimeoutRec where
  id : Nat
  t : Nat
  cancel : Bool
  cb : CallbackTag
deriving DecidableEq, Repr

/-- The state of a `timeout.Daemon` owned by one connection: the heap
contents (as the multiset of scheduled records) and the id counter. -/
structure DaemonState where
  timeouts : List TimeoutRec
  nextId : Nat
deriving DecidableEq, Repr

/-- `Timeout.Cancel` (tcp/internal/timeout/timeout.go lines 55-57):
`atomic.StoreUint32(&t.cancel, 1)`. The receiver is a `*Timeout`; when the
stored handle is nil (`none`) the field access dereferences a nil pointer
and panics, which `none` models. -/
def timeoutCancel (d : DaemonState) : Option Nat → Option DaemonState
  | none => none
  | some id =>
    some { d with
      timeouts := d.timeouts.map fun r =>
        if r.id = id then { r with cancel := true } else r }

/-- `Daemon.AddTimeout` (tcp/internal/timeout/timeout.go): push a fresh
record and return its handle. -/
def addTimeout (d : DaemonState) (cb : CallbackTag) (t : Nat) :
    Nat × DaemonState :=
  (d.nextId,
   { timeouts := d.timeouts ++ [⟨d.nextId, t, false, cb⟩],
     nextId := d.nextId + 1 })

/-- The deadline-related state of a `Conn` (tcp/conn.go lines 52-65):
`rdeadline` and the read timeout handle (`rdhandle`, nil when absent), plus
the connection-owned daemon. -/
structure ConnDeadlineState where
  rdeadline : Nat
  rdhandle : Option Nat
  daemon : DaemonState
deriving DecidableEq, Repr

/-- `readTimeoutCallback` (tcp/client.go line 136): clears the handle and
broadcasts on the read condition (the broadcast is the returned flag). -/
def readTimeoutCallback (c : ConnDeadlineState) : ConnDeadlineState × Bool :=
  ({ c with rdhandle := none }, true)

/-- `Conn.setReadDeadline` (tcp/client.go lines 110-117): store `t`, cancel
the prior handle (`c.rdhandle.Cancel()` — a nil dereference when no handle
exists, modelled as `none`), and unless `t` is the zero time add a new
timeout whose handle replaces `rdhandle`. -/
def setReadDeadline (c : ConnDeadlineState) (t : Nat) :
    Option ConnDeadlineState :=
  let c := { c with rdeadline := t }
  match timeoutCancel c.daemon c.rdhandle with
  | none => none
  | some d =>
    let c := { c with daemon := d }
    if t = 0 then some c
    else
      let (id, d2) := addTimeout c.daemon .readCB t
      some { c with daemon := d2, rdhandle := some id }

/-! ## tcp/timeout.go : the connection-owned timeouter heap -/

/-- `heapTimeouts.Pop` (tcp/timeout.go lines 110-114):

  `x := (*h)[len(*h)]` — the index equals the length, one past the last
element, so for every heap (empty or not) the access is out of range and
the Go runtime panics, modelled by `none`. The correct read, and what
`container/heap` requires, is index `len(*h)-1` (which is what the newer
copy in tcp/internal/timeout uses). On the (unreachable) in-bounds path the
function would return that element and the list without its last entry. -/
def heapTimeoutsPop (h : List TimeoutRec) : Option (TimeoutRec × List TimeoutRec) :=
  match h[h.length]? with
  | none => none
  | some x => some (x, h.take (h.length - 1))

/-! ## tcp/internal/buffer : circular buffer, interval allocator, ReadBuffer

Go `int` indices and offsets are `Nat` (every value reached in the states
considered below is non-negative); the `-1` sentinel for interval links is
`Option Nat`. Out-of-range slice accesses cannot occur in the well-formed
states the theorems quantify over, so array reads use a zero-value default
(`zeroInterval`) rather than a panic marker. -/

/-- `type interval struct` (part_011 lines 115-123). -/
structure interval where
  begin : Nat
  len : Nat
  next : Option Nat
  nextFree : Nat
deriving DecidableEq, Repr

/-- The Go zero value `interval{}` (`next` is the integer 0, which in the
`-1 ↦ none` encoding is `some 0`; it is never read before being set). -/
def zeroInterval : interval := ⟨0, 0, some 0, 0⟩

/-- Read `intervals[i]`. -/
def aget (a : Array interval) (i : Nat) : interval :=
  a.getD i zeroInterval

/-- Write `intervals[i]`. -/
def aset (a : Array interval) (i : Nat) (v : interval) : Array interval :=
  a.setD i v

/-- `type intervalAllocator struct` (part_011 lines 129-132). -/
structure intervalAllocator where
  intervals : Array interval
  firstFree : Nat
deriving DecidableEq, Repr

/-- `newIntervalAllocator` (part_011 lines 134-140): `make([]interval, n)`
followed by the loop `ia.intervals[i].nextFree = i + 1` for `i < n-1`; the
array is built directly with element `i` holding the value the loop leaves
there (zero value except `nextFree`, which is `i+1` for all but the last
element). -/
def newIntervalAllocator (n : Nat) : intervalAllocator :=
  { intervals :=
      ((List.range n).map fun i =>
        if i < n - 1 then { zeroInterval with nextFree := i + 1 }
        else zeroInterval).toArray,
    firstFree := 0 }

/-- `intervalAllocator.New` (part_011 lines 144-148). -/
def intervalAllocator.New (ia : intervalAllocator) : Nat × intervalAllocator :=
  (ia.firstFree,
   { ia with firstFree := (aget ia.intervals ia.firstFree).nextFree })

/-- `intervalAllocator.Free` (part_011 lines 151-154). -/
def intervalAllocator.Free (ia : intervalAllocator) (idx : Nat) :
    intervalAllocator :=
  { intervals := aset ia.intervals idx
      { aget ia.intervals idx with nextFree := ia.firstFree },
    firstFree := idx }

/-- `type circularBuffer struct` (buffer.go lines 5-8). -/
structure circularBuffer where
  start : Nat
  buf : Array Nat
deriving DecidableEq, Repr

/-- `newCircularBuffer` (buffer.go). -/
def newCircularBuffer (n : Nat) : circularBuffer :=
  ⟨0, Array.mkArray n 0⟩

/-- `circularBuffer.Advance` (buffer.go lines 22-24). -/
def circularBuffer.Advance (c : circularBuffer) (n : Nat) : circularBuffer :=
  { c with start := (c.start + n) % c.buf.size }

/-- Go `copy(dst[pos:], src)`: write `src` into the array from `pos`,
stopping at the end of the array. -/
def copyIntoFrom (a : Array Nat) (pos : Nat) : List Nat → Array Nat
  | [] => a
  | x :: xs => if pos < a.size then copyIntoFrom (a.setD pos x) (pos + 1) xs else a

/-- Go `b[pos : pos+k]` as a list (reads used by `CopyFrom`). -/
def readFrom (a : Array Nat) (pos k : Nat) : List Nat :=
  (List.range k).map fun i => a.getD (pos + i) 0

/-- `circularBuffer.CopyTo` (buffer.go lines 46-58): copy `b` into the
buffer at `offset` from the logical start, wrapping once. -/
def circularBuffer.CopyTo (c : circularBuffer) (b : List Nat) (offset : Nat) :
    circularBuffer :=
  let start := c.start + offset
  let start := if start ≥ c.buf.size then start % c.buf.size else start
  if start + b.length < c.buf.size then
    { c with buf := copyIntoFrom c.buf start b }
  else
    let n := min (c.buf.size - start) b.length
    { c with buf := copyIntoFrom (copyIntoFrom c.buf start b) 0 (b.drop n) }

/-- `circularBuffer.CopyFrom` (buffer.go lines 29-41): read `blen` bytes
from `offset` past the logical start, wrapping once. -/
def circularBuffer.CopyFrom (c : circularBuffer) (blen offset : Nat) :
    List Nat :=
  let start := c.start + offset
  let start := if start ≥ c.buf.size then start % c.buf.size else start
  if start + blen < c.buf.size then
    readFrom c.buf start blen
  else
    let n := min (c.buf.size - start) blen
    readFrom c.buf start n ++ readFrom c.buf 0 (blen - n)

/-- `type ReadBuffer struct` (part_011 lines 5-11). -/
structure ReadBuffer where
  seq : Nat
  firstInterval : Option Nat
  buf : circularBuffer
  intervals : intervalAllocator
deriving DecidableEq, Repr

/-- `NewReadBuffer` (part_011 lines 15-22). -/
def NewReadBuffer (n : Nat) (seq : Nat) : ReadBuffer :=
  ⟨seq, none, newCircularBuffer n, newIntervalAllocator n⟩

/-- `ReadBuffer.Available` (part_011 lines 49-56). -/
def ReadBuffer.Available (r : ReadBuffer) : Nat :=
  match r.firstInterval with
  | none => 0
  | some idx =>
    if (aget r.intervals.intervals idx).begin ≠ 0 then 0
    else (aget r.intervals.intervals idx).len

/-- `ReadBuffer.Next` (part_011 lines 43-45): `uint32(int(r.seq) +
r.Available())`. -/
def ReadBuffer.Next (r : ReadBuffer) : Nat :=
  (r.seq + r.Available) % 4294967296

/-- The walk of `ReadBuffer.write` (part_011 lines 73-80): advance while
`next != -1 && intervals[next].begin < offset`, tracking `curidx` (`none`
while `cur` still points at `r.firstInterval`). Fuel bounds the walk; any
well-formed chain is shorter than the allocator, so the callers' fuel is
never exhausted. -/
def findSplice (ia : Array interval) (offset : Nat) :
    Option Nat → Option Nat → Nat → Option Nat × Option Nat
  | curidx, next, 0 => (curidx, next)
  | curidx, next, fuel + 1 =>
    match next with
    | none => (curidx, none)
    | some n =>
      if (aget ia n).begin < offset then
        findSplice ia offset (some n) (aget ia n).next fuel
      else (curidx, some n)

/-- The loop of `ReadBuffer.coalesce` (part_011 lines 97-113): while the
current interval reaches its successor (`cur.begin+cur.len >= next.begin`),
grow `cur.len` to `max` of the two extents, unlink the successor and free
it. The `next.begin - cur.begin` subtraction is the Go `int` subtraction;
in the sorted chains considered here it never underflows. -/
def coalesceLoop (ia : intervalAllocator) (first : Nat) :
    Nat → intervalAllocator
  | 0 => ia
  | fuel + 1 =>
    let cur := aget ia.intervals first
    match cur.next with
    | none => ia
    | some nextidx =>
      let nxt := aget ia.intervals nextidx
      if cur.begin + cur.len < nxt.begin then ia
      else
        let newlen :=
          if cur.len < (nxt.begin - cur.begin) + nxt.len then
            (nxt.begin - cur.begin) + nxt.len
          else cur.len
        let arr := aset ia.intervals first
          { cur with len := newlen, next := nxt.next }
        coalesceLoop (intervalAllocator.Free { ia with intervals := arr } nextidx)
          first fuel

/-- `ReadBuffer.coalesce` (part_011 lines 97-113). -/
def ReadBuffer.coalesce (r : ReadBuffer) (first : Nat) : ReadBuffer :=
  { r with intervals :=
      coalesceLoop r.intervals first (r.intervals.intervals.size + 1) }

/-- `ReadBuffer.write` (part_011 lines 58-94): copy the bytes, splice a new
interval at the sorted position, coalesce from the predecessor (or from the
new interval when it became the head). -/
def ReadBuffer.write (r : ReadBuffer) (b : List Nat) (offset : Nat) :
    ReadBuffer :=
  let r := { r with buf := r.buf.CopyTo b offset }
  match r.firstInterval with
  | none =>
    let (idx, ia) := r.intervals.New
    let arr := aset ia.intervals idx
      { aget ia.intervals idx with
          begin := offset, len := b.length, next := none }
    { r with intervals := { ia with intervals := arr },
             firstInterval := some idx }
  | some _ =>
    let (curidx, nxt) :=
      findSplice r.intervals.intervals offset none r.firstInterval
        (r.intervals.intervals.size + 1)
    let (idx, ia) := r.intervals.New
    let arr := aset ia.intervals idx
      { aget ia.intervals idx with
          begin := offset, len := b.length, next := nxt }
    let ia := { ia with intervals := arr }
    match curidx with
    | none =>
      ReadBuffer.coalesce { r with intervals := ia, firstInterval := some idx }
        idx
    | some c =>
      let arr2 := aset ia.intervals c
        { aget ia.intervals c with next := some idx }
      ReadBuffer.coalesce { r with intervals := { ia with intervals := arr2 } }
        c

/-- `ReadBuffer.Write` (part_011 lines 26-29): the public entry point;
`offset := int(seq - r.seq)` is the 32-bit modular difference. Returns
`Next()` of the updated buffer together with the buffer. -/
def ReadBuffer.Write (r : ReadBuffer) (b : List Nat) (seq : Nat) :
    Nat × ReadBuffer :=
  let r2 := r.write b ((seq + 4294967296 - r.seq % 4294967296) % 4294967296)
  (r2.Next, r2)

/-- The interval-offset loop of `ReadBuffer.ReadAndAdvance` (part_011 lines
37-39): `r.intervals.intervals[idx].begin += len(b)` along the chain. -/
def bumpIntervals (ia : Array interval) :
    Option Nat → Nat → Nat → Array interval
  | _, _, 0 => ia
  | none, _, _ => ia
  | some i, blen, fuel + 1 =>
    let ivl := aget ia i
    bumpIntervals (aset ia i { ivl with begin := ivl.begin + blen })
      ivl.next blen fuel

/-- `ReadBuffer.ReadAndAdvance` (part_011 lines 34-40), exactly as written:
it copies `len(b)` bytes out from offset 0, advances `r.seq`, and INCREMENTS
every interval's `begin` by `len(b)`; it never calls `r.buf.Advance`. -/
def ReadBuffer.ReadAndAdvance (r : ReadBuffer) (blen : Nat) :
    List Nat × ReadBuffer :=
  let bytes := r.buf.CopyFrom blen 0
  let arr := bumpIntervals r.intervals.intervals r.firstInterval blen
    (r.intervals.intervals.size + 1)
  (bytes,
   { r with
      seq := (r.seq + blen) % 4294967296,
      intervals := { r.intervals with intervals := arr } })

/-- The indices of the interval chain starting at `head` (fuel-bounded; on
the well-formed states below the fuel is never exhausted). -/
def chainIdxs (ia : Array interval) : Option Nat → Nat → List Nat
  | none, _ => []
  | some _, 0 => []
  | some i, fuel + 1 => i :: chainIdxs ia (aget ia i).next fuel

/-- The `(begin, len)` pairs of the given chain indices. -/
def chainPairs (ia : Array interval) (js : List Nat) : List (Nat × Nat) :=
  js.map fun i => ((aget ia i).begin, (aget ia i).len)

/-- The interval list of a ReadBuffer as `(begin, len)` pairs, in chain
order (what the repository's own test harness extracts, buffer_test.go
lines 204-209). -/
def ReadBuffer.chainList (r : ReadBuffer) : List (Nat × Nat) :=
  chainPairs r.intervals.intervals
    (chainIdxs r.intervals.intervals r.firstInterval
      (r.intervals.intervals.size + 1))

/-! ## Functional descriptions of splice-and-coalesce

`coalesceSpec` is the spec's merge rule ("coalesces ... as long as the
interval's offset + length ≥ neighbor.offset; the merged length is
max(length, (neighbor.offset − offset) + neighbor.length)") applied from a
starting interval along a list of `(offset, length)` pairs.
`spliceCoalesceClaim` is the claim's literal reading: insert the new
interval in offset order and coalesce it with ITS right-hand neighbors.
`spliceCoalesce` is the amended description: after inserting, coalescing
starts at the new interval's LEFT neighbor (at the new interval itself when
it is first) and stops at the first gap, exactly as the code's
`coalesce(curidx)` call does. -/

/-- The merge loop, on `(offset, length)` pairs. -/
def coalesceSpec : Nat × Nat → List (Nat × Nat) → List (Nat × Nat)
  | c, [] => [c]
  | (o, l), (o2, l2) :: rest =>
    if o + l < o2 then (o, l) :: (o2, l2) :: rest
    else coalesceSpec (o, max l ((o2 - o) + l2)) rest

/-- Modelled from the claim's wording: splice in offset order, then the new
interval absorbs right-hand neighbors while it reaches them. -/
def spliceCoalesceClaim (o l : Nat) : List (Nat × Nat) → List (Nat × Nat)
  | [] => [(o, l)]
  | (o1, l1) :: rest =>
    if o1 < o then (o1, l1) :: spliceCoalesceClaim o l rest
    else coalesceSpec (o, l) ((o1, l1) :: rest)

/-- The amended description: splice in offset order and coalesce starting
from the left neighbor of the splice point (from the new interval itself
when it is inserted at the head), stopping at the first gap. -/
def spliceCoalesce (o l : Nat) : List (Nat × Nat) → List (Nat × Nat)
  | [] => [(o, l)]
  | (o1, l1) :: rest =>
    if o1 < o then
      match rest with
      | [] => coalesceSpec (o1, l1) [(o, l)]
      | p :: _ =>
        if p.1 < o then (o1, l1) :: spliceCoalesce o l rest
        else coalesceSpec (o1, l1) ((o, l) :: rest)
    else coalesceSpec (o, l) ((o1, l1) :: rest)

/-! ## Chains in the allocator array

`chainSeg ia head js stop` says: starting from the pointer `head`, the
`next` links visit exactly the indices `js` and leave the pointer at
`stop`. `isChain ia head js` is a complete chain (ends at the `-1`/`none`
sentinel). All reachable `ReadBuffer` states have such a chain; the
refinement theorem below quantifies over it. -/

def chainSeg (ia : Array interval) : Option Nat → List Nat → Option Nat → Bool
  | head, [], stop => head == stop
  | head, j :: js, stop =>
    head == some j && decide (j < ia.size) &&
      chainSeg ia (aget ia j).next js stop

/-- A complete interval chain. -/
def isChain (ia : Array interval) (head : Option Nat) (js : List Nat) : Bool :=
  chainSeg ia head js none

lemma size_aset (a : Array interval) (i : Nat) (v : interval) :
    (aset a i v).size = a.size :=
  Array.size_setD a i v

lemma aget_aset_self (a : Array interval) (i : Nat) (v : interval)
    (h : i < a.size) : aget (aset a i v) i = v := by
  unfold aget aset
  rw [Array.getD_eq_get?, Array.getElem?_setD_eq a h v]
  rfl

lemma aget_aset_other (a : Array interval) (i j : Nat) (v : interval)
    (hij : i ≠ j) : aget (aset a i v) j = aget a j := by
  unfold aget aset
  rw [Array.getD_eq_get?, Array.getD_eq_get?]
  congr 1
  unfold Array.setD
  split
  case isTrue hi => exact Array.getElem?_set_ne a ⟨i, hi⟩ v hij
  case isFalse => rfl

lemma chainSeg_nil {ia : Array interval} {head stop : Option Nat} :
    chainSeg ia head [] stop = true ↔ head = stop := by
  simp [chainSeg]

lemma chainSeg_cons {ia : Array interval} {head stop : Option Nat} {j : Nat}
    {js : List Nat} :
    chainSeg ia head (j :: js) stop = true ↔
      head = some j ∧ j < ia.size ∧
        chainSeg ia (aget ia j).next js stop = true := by
  simp [chainSeg, and_assoc]

lemma chainSeg_mem_lt {ia : Array interval} :
    ∀ {js : List Nat} {head stop : Option Nat},
      chainSeg ia head js stop = true → ∀ j ∈ js, j < ia.size := by
  intro js
  induction js with
  | nil => intro head stop _ j hj; cases hj
  | cons a js ih =>
    intro head stop h j hj
    obtain ⟨-, ha, hrest⟩ := chainSeg_cons.mp h
    rcases List.mem_cons.mp hj with rfl | hj2
    · exact ha
    · exact ih hrest j hj2

lemma chainSeg_congr {ia ia2 : Array interval}
    (hsz : ia2.size = ia.size) :
    ∀ {js : List Nat} {head stop : Option Nat},
      (∀ j ∈ js, (aget ia2 j).next = (aget ia j).next) →
      chainSeg ia head js stop = true → chainSeg ia2 head js stop = true := by
  intro js
  induction js with
  | nil =>
    intro head stop _ h
    exact chainSeg_nil.mpr (chainSeg_nil.mp h)
  | cons a js ih =>
    intro head stop hnx h
    obtain ⟨h1, h2, h3⟩ := chainSeg_cons.mp h
    refine chainSeg_cons.mpr ⟨h1, hsz ▸ h2, ?_⟩
    rw [hnx a (List.mem_cons_self a js)]
    exact ih (fun j hj => hnx j (List.mem_cons_of_mem a hj)) h3

lemma chainSeg_append_elim {ia : Array interval} :
    ∀ {p q : List Nat} {head stop : Option Nat},
      chainSeg ia head (p ++ q) stop = true →
      ∃ mid, chainSeg ia head p mid = true ∧ chainSeg ia mid q stop = true := by
  intro p
  induction p with
  | nil =>
    intro q head stop h
    exact ⟨head, chainSeg_nil.mpr rfl, h⟩
  | cons a p ih =>
    intro q head stop h
    rw [List.cons_append] at h
    obtain ⟨h1, h2, h3⟩ := chainSeg_cons.mp h
    obtain ⟨mid, hm1, hm2⟩ := ih h3
    exact ⟨mid, chainSeg_cons.mpr ⟨h1, h2, hm1⟩, hm2⟩

lemma chainSeg_append_intro {ia : Array interval} :
    ∀ {p q : List Nat} {head mid stop : Option Nat},
      chainSeg ia head p mid = true → chainSeg ia mid q stop = true →
      chainSeg ia head (p ++ q) stop = true := by
  intro p
  induction p with
  | nil =>
    intro q head mid stop h1 h2
    rw [chainSeg_nil.mp h1]
    exact h2
  | cons a p ih =>
    intro q head mid stop h1 h2
    obtain ⟨ha, hb, hc⟩ := chainSeg_cons.mp h1
    exact chainSeg_cons.mpr ⟨ha, hb, ih hc h2⟩

/-- The begin/len/next fields of an entry, which the chain and its pairs
depend on (`Free` only touches `nextFree`). -/
def sameBLN (x y : interval) : Prop :=
  x.begin = y.begin ∧ x.len = y.len ∧ x.next = y.next

lemma aset_oob (a : Array interval) (i : Nat) (v : interval)
    (h : ¬ i < a.size) : aset a i v = a := by
  unfold aset Array.setD
  rw [dif_neg h]

lemma free_sameBLN (ia : intervalAllocator) (idx : Nat) (j : Nat) :
    sameBLN (aget (ia.Free idx).intervals j) (aget ia.intervals j) := by
  unfold intervalAllocator.Free
  by_cases hij : idx = j
  · subst hij
    by_cases hlt : idx < ia.intervals.size
    · rw [aget_aset_self _ _ _ hlt]
      exact ⟨rfl, rfl, rfl⟩
    · rw [aset_oob _ _ _ hlt]
      exact ⟨rfl, rfl, rfl⟩
  · rw [aget_aset_other _ _ _ _ hij]
    exact ⟨rfl, rfl, rfl⟩

lemma size_free (ia : intervalAllocator) (idx : Nat) :
    (ia.Free idx).intervals.size = ia.intervals.size :=
  size_aset ..

lemma chainPairs_congr {ia ia2 : Array interval} {js : List Nat}
    (h : ∀ j ∈ js, (aget ia2 j).begin = (aget ia j).begin ∧
      (aget ia2 j).len = (aget ia j).len) :
    chainPairs ia2 js = chainPairs ia js := by
  unfold chainPairs
  exact List.map_congr_left fun j hj => by
    rw [(h j hj).1, (h j hj).2]

/-- The splice-point walk: on a chain `js`, `findSplice` returns the last
index whose `begin` is below `offset` (or the incoming `curidx` when there
is none) together with the pointer to the first index at or past `offset`. -/
lemma findSplice_spec (ia : Array interval) (offset : Nat) :
    ∀ (js : List Nat) (curidx next : Option Nat) (fuel : Nat),
      chainSeg ia next js none = true →
      js.length ≤ fuel →
      findSplice ia offset curidx next fuel =
        (Option.or
          ((js.takeWhile fun j => decide ((aget ia j).begin < offset)).getLast?)
          curidx,
         (js.dropWhile fun j => decide ((aget ia j).begin < offset)).head?) := by
  intro js
  induction js with
  | nil =>
    intro curidx next fuel hc _
    rw [chainSeg_nil.mp hc]
    cases fuel <;> simp [findSplice, Option.or]
  | cons j js ih =>
    intro curidx next fuel hc hlen
    obtain ⟨rfl, hlt, hrest⟩ := chainSeg_cons.mp hc
    cases fuel with
    | zero => simp at hlen
    | succ f =>
      rw [List.length_cons] at hlen
      unfold findSplice
      show (if (aget ia j).begin < offset then
              findSplice ia offset (some j) (aget ia j).next f
            else (curidx, some j)) = _
      by_cases hb : (aget ia j).begin < offset
      · rw [if_pos hb, ih (some j) (aget ia j).next f hrest (by omega),
          List.takeWhile_cons_of_pos (by simpa using hb),
          List.dropWhile_cons_of_pos (by simpa using hb)]
        have : Option.or
            ((j :: js.takeWhile fun i => decide ((aget ia i).begin < offset)).getLast?)
            curidx =
          Option.or
            ((js.takeWhile fun i => decide ((aget ia i).begin < offset)).getLast?)
            (some j) := by
          cases htw : js.takeWhile fun i => decide ((aget ia i).begin < offset) with
          | nil => simp [Option.or]
          | cons a l =>
            rw [List.getLast?_cons_cons]
            have hsome : ((a :: l).getLast?).isSome :=
              List.getLast?_isSome.mpr (List.cons_ne_nil a l)
            obtain ⟨x, hx⟩ := Option.isSome_iff_exists.mp hsome
            rw [hx]
            simp [Option.or]
        rw [this]
      · rw [if_neg hb,
          List.takeWhile_cons_of_neg (by simpa using hb),
          List.dropWhile_cons_of_neg (by simpa using hb)]
        simp [Option.or]

lemma coalesceLoop_stop_none (ia : intervalAllocator) (s f : Nat)
    (h : (aget ia.intervals s).next = none) :
    coalesceLoop ia s (f + 1) = ia := by
  simp only [coalesceLoop, h]

lemma coalesceLoop_stop_gap (ia : intervalAllocator) (s f k : Nat)
    (h : (aget ia.intervals s).next = some k)
    (hgap : (aget ia.intervals s).begin + (aget ia.intervals s).len <
      (aget ia.intervals k).begin) :
    coalesceLoop ia s (f + 1) = ia := by
  simp only [coalesceLoop, h, if_pos hgap]

lemma coalesceLoop_merge_step (ia : intervalAllocator) (s f k : Nat)
    (h : (aget ia.intervals s).next = some k)
    (hgap : ¬ (aget ia.intervals s).begin + (aget ia.intervals s).len <
      (aget ia.intervals k).begin) :
    coalesceLoop ia s (f + 1) =
      coalesceLoop
        (intervalAllocator.Free
          ⟨aset ia.intervals s
            { aget ia.intervals s with
                len :=
                  if (aget ia.intervals s).len <
                      ((aget ia.intervals k).begin -
                          (aget ia.intervals s).begin) +
                        (aget ia.intervals k).len then
                    ((aget ia.intervals k).begin -
                        (aget ia.intervals s).begin) +
                      (aget ia.intervals k).len
                  else (aget ia.intervals s).len,
                next := (aget ia.intervals k).next },
           ia.firstFree⟩
          k)
        s f := by
  simp only [coalesceLoop, h, if_neg hgap]

lemma if_lt_max (a b : Nat) : (if a < b then b else a) = max a b := by
  split <;> omega

lemma sameBLN_trans {x y z : interval} (h1 : sameBLN x y) (h2 : sameBLN y z) :
    sameBLN x z :=
  ⟨h1.1.trans h2.1, h1.2.1.trans h2.2.1, h1.2.2.trans h2.2.2⟩

/-- The coalesce loop implements `coalesceSpec`: starting from interval `s`
with the chain `ks` after it, it drops some prefix of `ks` (merging each
dropped interval into `s`), leaves the rest linked after `s`, and the
`(begin, len)` pairs from `s` on are exactly `coalesceSpec` of the initial
pairs. All entries other than `s` keep their begin/len/next fields. -/
lemma coalesceLoop_spec :
    ∀ (fuel : Nat) (ia : intervalAllocator) (s : Nat) (ks : List Nat),
      s < ia.intervals.size →
      chainSeg ia.intervals (aget ia.intervals s).next ks none = true →
      (s :: ks).Nodup →
      ks.length ≤ fuel →
      ∃ m, m ≤ ks.length ∧
        (coalesceLoop ia s fuel).intervals.size = ia.intervals.size ∧
        chainSeg (coalesceLoop ia s fuel).intervals
          (aget (coalesceLoop ia s fuel).intervals s).next (ks.drop m) none
          = true ∧
        ((aget (coalesceLoop ia s fuel).intervals s).begin,
            (aget (coalesceLoop ia s fuel).intervals s).len) ::
            chainPairs (coalesceLoop ia s fuel).intervals (ks.drop m) =
          coalesceSpec
            ((aget ia.intervals s).begin, (aget ia.intervals s).len)
            (chainPairs ia.intervals ks) ∧
        (∀ j, j ≠ s →
          sameBLN (aget (coalesceLoop ia s fuel).intervals j)
            (aget ia.intervals j)) := by
  intro fuel
  induction fuel with
  | zero =>
    intro ia s ks hs hc hnd hlen
    have hks : ks = [] := List.eq_nil_of_length_eq_zero (by omega)
    subst hks
    refine ⟨0, le_rfl, rfl, hc, ?_, fun j _ => ⟨rfl, rfl, rfl⟩⟩
    simp [chainPairs, coalesceSpec, coalesceLoop]
  | succ f ih =>
    intro ia s ks hs hc hnd hlen
    cases ks with
    | nil =>
      have hnone : (aget ia.intervals s).next = none := chainSeg_nil.mp hc
      rw [coalesceLoop_stop_none ia s f hnone]
      exact ⟨0, le_rfl, rfl, hc, by simp [chainPairs, coalesceSpec], fun j _ => ⟨rfl, rfl, rfl⟩⟩
    | cons k ks2 =>
      obtain ⟨hnext, hk, hrest⟩ := chainSeg_cons.mp hc
      by_cases hgap : (aget ia.intervals s).begin + (aget ia.intervals s).len <
          (aget ia.intervals k).begin
      · rw [coalesceLoop_stop_gap ia s f k hnext hgap]
        refine ⟨0, by omega, rfl, hc, ?_, fun j _ => ⟨rfl, rfl, rfl⟩⟩
        simp only [List.drop_zero, chainPairs, List.map_cons, coalesceSpec,
          if_pos hgap]
      · -- merge `k` into `s` and recurse
        set newlen :=
          if (aget ia.intervals s).len <
              ((aget ia.intervals k).begin - (aget ia.intervals s).begin) +
                (aget ia.intervals k).len then
            ((aget ia.intervals k).begin - (aget ia.intervals s).begin) +
              (aget ia.intervals k).len
          else (aget ia.intervals s).len with hnew
        set ia2 : intervalAllocator :=
          intervalAllocator.Free
            ⟨aset ia.intervals s
              { aget ia.intervals s with
                  len := newlen, next := (aget ia.intervals k).next },
             ia.firstFree⟩ k with hia2
        have hstep : coalesceLoop ia s (f + 1) = coalesceLoop ia2 s f :=
          coalesceLoop_merge_step ia s f k hnext hgap
        have hsk : s ≠ k := by
          intro hq
          subst hq
          exact (List.nodup_cons.mp hnd).1 (List.mem_cons_self s ks2)
        have hsize2 : ia2.intervals.size = ia.intervals.size := by
          rw [hia2, size_free]
          exact size_aset ..
        have hbln2 : ∀ j, j ≠ s →
            sameBLN (aget ia2.intervals j) (aget ia.intervals j) := by
          intro j hj
          have h1 := free_sameBLN
            ⟨aset ia.intervals s
              { aget ia.intervals s with
                  len := newlen, next := (aget ia.intervals k).next },
             ia.firstFree⟩ k j
          rw [← hia2] at h1
          refine sameBLN_trans h1 ?_
          show sameBLN (aget (aset ia.intervals s _) j) (aget ia.intervals j)
          rw [aget_aset_other _ _ _ _ fun hq => hj hq.symm]
          exact ⟨rfl, rfl, rfl⟩
        have hs2get : aget ia2.intervals s =
            { aget (aset ia.intervals s
                { aget ia.intervals s with
                    len := newlen, next := (aget ia.intervals k).next }) s
              with nextFree := (aget ia2.intervals s).nextFree } := by
          have h1 := free_sameBLN
            ⟨aset ia.intervals s
              { aget ia.intervals s with
                  len := newlen, next := (aget ia.intervals k).next },
             ia.firstFree⟩ k s
          rw [← hia2] at h1
          obtain ⟨e1, e2, e3⟩ := h1
          cases hv : aget ia2.intervals s
          cases hw : aget (aset ia.intervals s _) s
          simp only [hv, hw] at e1 e2 e3 ⊢
          simp [e1, e2, e3]
        have hsets : aget (aset ia.intervals s
            { aget ia.intervals s with
                len := newlen, next := (aget ia.intervals k).next }) s =
            { aget ia.intervals s with
                len := newlen, next := (aget ia.intervals k).next } :=
          aget_aset_self _ _ _ hs
        have hs2begin : (aget ia2.intervals s).begin =
            (aget ia.intervals s).begin := by
          rw [hs2get, hsets]
        have hs2len : (aget ia2.intervals s).len = newlen := by
          rw [hs2get, hsets]
        have hs2next : (aget ia2.intervals s).next =
            (aget ia.intervals k).next := by
          rw [hs2get, hsets]
        have hknotmem : k ∉ ks2 := by
          have := (List.nodup_cons.mp (List.nodup_cons.mp hnd).2)
          exact this.1
        have hsnotmem : s ∉ ks2 := by
          have := (List.nodup_cons.mp hnd).1
          intro hq
          exact this (List.mem_cons_of_mem k hq)
        have hc2 : chainSeg ia2.intervals (aget ia2.intervals s).next ks2 none
            = true := by
          rw [hs2next]
          refine chainSeg_congr (by rw [hsize2]) ?_ hrest
          intro j hj
          have hjs : j ≠ s := fun hq => hsnotmem (hq ▸ hj)
          exact (hbln2 j hjs).2.2
        have hnd2 : (s :: ks2).Nodup := by
          rw [List.nodup_cons] at hnd ⊢
          exact ⟨hsnotmem, (List.nodup_cons.mp hnd.2).2⟩
        have hlen2 : ks2.length ≤ f := by
          rw [List.length_cons] at hlen
          omega
        obtain ⟨m, hm, hsz3, hc3, hpairs3, hbln3⟩ :=
          ih ia2 s ks2 (by rw [hsize2]; exact hs) hc2 hnd2 hlen2
        rw [hstep]
        refine ⟨m + 1, by simp; omega, by rw [hsz3, hsize2], ?_, ?_, ?_⟩
        · simpa using hc3
        · have hpairs2 : chainPairs ia2.intervals ks2 =
              chainPairs ia.intervals ks2 := by
            refine chainPairs_congr ?_
            intro j hj
            have hjs : j ≠ s := fun hq => hsnotmem (hq ▸ hj)
            exact ⟨(hbln2 j hjs).1, (hbln2 j hjs).2.1⟩
          have : chainPairs ia.intervals (k :: ks2) =
              ((aget ia.intervals k).begin, (aget ia.intervals k).len) ::
                chainPairs ia.intervals ks2 := rfl
          rw [this]
          rw [show (ks2.drop m) = ((k :: ks2).drop (m + 1)) from rfl] at hpairs3
          rw [show coalesceSpec
                ((aget ia.intervals s).begin, (aget ia.intervals s).len)
                (((aget ia.intervals k).begin, (aget ia.intervals k).len) ::
                  chainPairs ia.intervals ks2) =
              coalesceSpec
                ((aget ia.intervals s).begin,
                 max (aget ia.intervals s).len
                   (((aget ia.intervals k).begin -
                       (aget ia.intervals s).begin) +
                     (aget ia.intervals k).len))
                (chainPairs ia.intervals ks2) from by
            simp only [coalesceSpec, if_neg hgap]]
          rw [← if_lt_max, ← hnew, ← hpairs2, ← hs2begin, ← hs2len]
          exact hpairs3
        · intro j hj
          exact sameBLN_trans (hbln3 j hj) (hbln2 j hj)

lemma head?_dropWhile_false {α : Type} (p : α → Bool) :
    ∀ (l : List α) (x : α),
      (l.dropWhile p).head? = some x → p x = false := by
  intro l
  induction l with
  | nil => intro x h; simp at h
  | cons a l ih =>
    intro x h
    by_cases hpa : p a
    · rw [List.dropWhile_cons_of_pos hpa] at h
      exact ih x h
    · rw [List.dropWhile_cons_of_neg hpa] at h
      simp only [List.head?_cons, Option.some.injEq] at h
      subst h
      exact Bool.eq_false_iff.mpr hpa

lemma nodup_length_le (n : Nat) :
    ∀ (js : List Nat), js.Nodup → (∀ j ∈ js, j < n) → js.length ≤ n := by
  intro js hnd hlt
  have h1 : js.toFinset.card = js.length := List.toFinset_card_of_nodup hnd
  have h2 : js.toFinset ⊆ Finset.range n := by
    intro x hx
    exact Finset.mem_range.mpr (hlt x (List.mem_toFinset.mp hx))
  have := Finset.card_le_card h2
  rw [h1, Finset.card_range] at this
  exact this

/-- When the list stands entirely at or past `offset`, the splice happens
at the head and coalescing starts at the new interval. -/
lemma spliceCoalesce_eq_head (o l : Nat) (S : List (Nat × Nat))
    (hS : ∀ u ∈ S.head?, ¬ u.1 < o) :
    spliceCoalesce o l S = coalesceSpec (o, l) S := by
  cases S with
  | nil => simp [spliceCoalesce, coalesceSpec]
  | cons u S2 =>
    have hu : ¬ u.1 < o := hS u rfl
    cases u with
    | mk o1 l1 => simp only [spliceCoalesce, if_neg hu]

lemma spliceCoalesce_single (o l oq lq : Nat) (hq : oq < o) :
    spliceCoalesce o l [(oq, lq)] = coalesceSpec (oq, lq) [(o, l)] := by
  simp only [spliceCoalesce, if_pos hq]

lemma spliceCoalesce_cons_cons (o l oq lq : Nat) (p : Nat × Nat)
    (rest : List (Nat × Nat)) (hq : oq < o) (hp : p.1 < o) :
    spliceCoalesce o l ((oq, lq) :: p :: rest) =
      (oq, lq) :: spliceCoalesce o l (p :: rest) := by
  obtain ⟨a, b⟩ := p
  simp only [spliceCoalesce, if_pos hq, if_pos hp]

lemma spliceCoalesce_cons_stop (o l oq lq : Nat) (p : Nat × Nat)
    (rest : List (Nat × Nat)) (hq : oq < o) (hp : ¬ p.1 < o) :
    spliceCoalesce o l ((oq, lq) :: p :: rest) =
      coalesceSpec (oq, lq) ((o, l) :: p :: rest) := by
  obtain ⟨a, b⟩ := p
  simp only [spliceCoalesce, if_pos hq, if_neg hp]

/-- The splice in the middle: all of `P` and `c` lie strictly below
`offset`, the suffix `S` does not, so the new interval lands between `c`
and `S` and coalescing starts at `c`. -/
lemma spliceCoalesce_eq_middle (o l : Nat) :
    ∀ (P : List (Nat × Nat)) (c : Nat × Nat) (S : List (Nat × Nat)),
      (∀ q ∈ P, q.1 < o) → c.1 < o →
      (∀ u ∈ S.head?, ¬ u.1 < o) →
      spliceCoalesce o l (P ++ c :: S) = P ++ coalesceSpec c ((o, l) :: S) := by
  intro P
  induction P with
  | nil =>
    intro c S _ hc hS
    obtain ⟨oc, lc⟩ := c
    rw [List.nil_append, List.nil_append]
    cases S with
    | nil => exact spliceCoalesce_single o l oc lc hc
    | cons u S2 => exact spliceCoalesce_cons_stop o l oc lc u S2 hc (hS u rfl)
  | cons q P2 ih =>
    intro c S hP hc hS
    have hq : q.1 < o := hP q (List.mem_cons_self q P2)
    obtain ⟨oq, lq⟩ := q
    have hrec := ih c S (fun x hx => hP x (List.mem_cons_of_mem _ hx)) hc hS
    cases P2 with
    | nil =>
      rw [List.cons_append, List.nil_append,
        spliceCoalesce_cons_cons o l oq lq c S hq hc, List.cons_append,
        List.nil_append]
      rw [List.nil_append] at hrec
      rw [hrec]
      simp
    | cons q2 P3 =>
      have hq2 : q2.1 < o := hP q2 (by simp)
      rw [List.cons_append, List.cons_append,
        spliceCoalesce_cons_cons o l oq lq q2 (P3 ++ c :: S) hq hq2,
        ← List.cons_append, hrec, List.cons_append]
      simp

/-- The write refinement: on a state whose intervals form a chain `js` with
no duplicate indices and a fresh free head, `ReadBuffer.write` produces a
chain whose `(begin, len)` pairs are exactly `spliceCoalesce` of the old
pairs. -/
theorem write_refines (r : ReadBuffer) (b : List Nat) (offset : Nat)
    (js : List Nat)
    (hchain : isChain r.intervals.intervals r.firstInterval js = true)
    (hnd : js.Nodup)
    (hfl : r.intervals.firstFree < r.intervals.intervals.size)
    (hfm : r.intervals.firstFree ∉ js) :
    ∃ js2,
      isChain (r.write b offset).intervals.intervals
        (r.write b offset).firstInterval js2 = true ∧
      chainPairs (r.write b offset).intervals.intervals js2 =
        spliceCoalesce offset b.length (chainPairs r.intervals.intervals js) := by
  unfold isChain at hchain ⊢
  cases hfi : r.firstInterval with
  | none =>
    have hjs : js = [] := by
      cases js with
      | nil => rfl
      | cons a l =>
        rw [hfi] at hchain
        obtain ⟨h1, -, -⟩ := chainSeg_cons.mp hchain
        exact absurd h1 (by simp)
    subst hjs
    have hw : r.write b offset =
        ⟨r.seq, some r.intervals.firstFree, r.buf.CopyTo b offset,
         ⟨aset r.intervals.intervals r.intervals.firstFree
            { aget r.intervals.intervals r.intervals.firstFree with
                begin := offset, len := b.length, next := none },
          (aget r.intervals.intervals r.intervals.firstFree).nextFree⟩⟩ := by
      simp only [ReadBuffer.write, intervalAllocator.New, hfi]
    rw [hw]
    refine ⟨[r.intervals.firstFree], ?_, ?_⟩
    · refine chainSeg_cons.mpr ⟨rfl, ?_, ?_⟩
      · rw [size_aset]
        exact hfl
      · rw [aget_aset_self _ _ _ hfl]
        exact chainSeg_nil.mpr rfl
    · show chainPairs _ [r.intervals.firstFree] = _
      unfold chainPairs
      rw [List.map_cons, List.map_nil, aget_aset_self _ _ _ hfl]
      simp [spliceCoalesce, chainPairs]
  | some h0 =>
    have hlt_all : ∀ j ∈ js, j < r.intervals.intervals.size :=
      chainSeg_mem_lt hchain
    have hlen : js.length ≤ r.intervals.intervals.size :=
      nodup_length_le _ js hnd hlt_all
    have hfs := findSplice_spec r.intervals.intervals offset js none
      r.firstInterval (r.intervals.intervals.size + 1) hchain (by omega)
    have hor : Option.or
        ((js.takeWhile fun j =>
          decide ((aget r.intervals.intervals j).begin < offset)).getLast?)
        none =
        (js.takeWhile fun j =>
          decide ((aget r.intervals.intervals j).begin < offset)).getLast? := by
      cases (js.takeWhile fun j =>
        decide ((aget r.intervals.intervals j).begin < offset)).getLast? <;> rfl
    rw [hor] at hfs
    set ia0 := r.intervals.intervals with hia0
    set f := r.intervals.firstFree with hf
    set p : Nat → Bool := fun j => decide ((aget ia0 j).begin < offset) with hp
    set pre := js.takeWhile p with hpredef
    set suf := js.dropWhile p with hsufdef
    have hsplit : pre ++ suf = js := List.takeWhile_append_dropWhile p js
    have hchain2 : chainSeg ia0 r.firstInterval (pre ++ suf) none = true := by
      rw [hsplit]
      exact hchain
    obtain ⟨mid, hpreSeg, hsufSeg⟩ := chainSeg_append_elim hchain2
    have hmid : mid = suf.head? := by
      cases hsufc : suf with
      | nil =>
        rw [hsufc] at hsufSeg
        simpa using chainSeg_nil.mp hsufSeg
      | cons u l =>
        rw [hsufc] at hsufSeg
        rw [(chainSeg_cons.mp hsufSeg).1]
        rfl
    have hnd2 : (pre ++ suf).Nodup := by
      rw [hsplit]
      exact hnd
    obtain ⟨hndPre, hndSuf, hdisj⟩ := List.nodup_append.mp hnd2
    have hfmPre : f ∉ pre := fun h => hfm (hsplit ▸ List.mem_append_left _ h)
    have hfmSuf : f ∉ suf := fun h => hfm (hsplit ▸ List.mem_append_right _ h)
    have hsufLen : suf.length ≤ js.length :=
      List.Sublist.length_le (List.dropWhile_sublist p)
    have hsufHead : ∀ u, suf.head? = some u → ¬ (aget ia0 u).begin < offset := by
      intro u hu
      have := head?_dropWhile_false p js u (by rw [← hsufdef]; exact hu)
      simpa [hp] using this
    have hpairsHead : ∀ u ∈ (chainPairs ia0 suf).head?, ¬ u.1 < offset := by
      intro u hu
      cases hsufc : suf with
      | nil => rw [hsufc] at hu; simp [chainPairs] at hu
      | cons v l =>
        rw [hsufc] at hu
        simp only [chainPairs, List.map_cons, List.head?_cons,
          Option.mem_def, Option.some.injEq] at hu
        have := hsufHead v (by rw [hsufc]; rfl)
        rw [← hu]
        exact this
    -- the fresh interval
    set arr1 := aset ia0 f
      { aget ia0 f with
          begin := offset, len := b.length, next := suf.head? } with harr1
    have hsz1 : arr1.size = ia0.size := size_aset ..
    have hgetf1 : aget arr1 f =
        { aget ia0 f with
            begin := offset, len := b.length, next := suf.head? } :=
      aget_aset_self _ _ _ hfl
    have hother1 : ∀ j, j ≠ f → aget arr1 j = aget ia0 j := fun j hj =>
      aget_aset_other _ _ _ _ fun hq => hj hq.symm
    have hpre1 : chainSeg arr1 r.firstInterval pre mid = true :=
      chainSeg_congr hsz1
        (fun j hj => by rw [hother1 j (fun hq => hfmPre (hq ▸ hj))]) hpreSeg
    have hsuf1 : chainSeg arr1 mid suf none = true :=
      chainSeg_congr hsz1
        (fun j hj => by rw [hother1 j (fun hq => hfmSuf (hq ▸ hj))]) hsufSeg
    have hpairsSuf1 : chainPairs arr1 suf = chainPairs ia0 suf :=
      chainPairs_congr fun j hj => by
        rw [hother1 j (fun hq => hfmSuf (hq ▸ hj))]
        exact ⟨rfl, rfl⟩
    cases hgl : pre.getLast? with
    | none =>
      have hpreEmpty : pre = [] := List.getLast?_eq_none_iff.mp hgl
      have hjs_suf : js = suf := by rw [← hsplit, hpreEmpty, List.nil_append]
      rw [hgl] at hfs
      have hw : r.write b offset =
          ReadBuffer.coalesce
            ⟨r.seq, some f, r.buf.CopyTo b offset,
             ⟨arr1, (aget ia0 f).nextFree⟩⟩ f := by
        simp only [ReadBuffer.write, intervalAllocator.New, hfi, ← hia0,
          ← hf]
        rw [← hfi, hfs]
      rw [hw]
      unfold ReadBuffer.coalesce
      have hchainC : chainSeg arr1 (aget arr1 f).next suf none = true := by
        rw [hgetf1]
        show chainSeg arr1 suf.head? suf none = true
        rw [← hmid]
        exact hsuf1
      obtain ⟨m, hm, hszF, hchainF, hpairsF, hframeF⟩ :=
        coalesceLoop_spec (arr1.size + 1) ⟨arr1, (aget ia0 f).nextFree⟩ f suf
          (hsz1 ▸ hfl) hchainC (List.nodup_cons.mpr ⟨hfmSuf, hndSuf⟩)
          (by omega)
      refine ⟨f :: suf.drop m, ?_, ?_⟩
      · refine chainSeg_cons.mpr ⟨rfl, ?_, hchainF⟩
        rw [hszF, hsz1]
        exact hfl
      · show chainPairs _ (f :: suf.drop m) = _
        have hcons : chainPairs
            (coalesceLoop ⟨arr1, (aget ia0 f).nextFree⟩ f (arr1.size + 1)).intervals
            (f :: suf.drop m) =
            ((aget (coalesceLoop ⟨arr1, (aget ia0 f).nextFree⟩ f
                (arr1.size + 1)).intervals f).begin,
             (aget (coalesceLoop ⟨arr1, (aget ia0 f).nextFree⟩ f
                (arr1.size + 1)).intervals f).len) ::
            chainPairs
              (coalesceLoop ⟨arr1, (aget ia0 f).nextFree⟩ f
                (arr1.size + 1)).intervals (suf.drop m) := rfl
        rw [hcons, hpairsF, hgetf1]
        show coalesceSpec (offset, b.length) (chainPairs arr1 suf) = _
        rw [hpairsSuf1, hjs_suf,
          spliceCoalesce_eq_head offset b.length (chainPairs ia0 suf)
            hpairsHead]
    | some c =>
      obtain ⟨pre2, hpre2⟩ := List.getLast?_eq_some_iff.mp hgl
      rw [hgl] at hfs
      have hcmem : c ∈ pre := by
        rw [hpre2]
        exact List.mem_append_right _ (List.mem_cons_self c [])
      have hclt : (aget ia0 c).begin < offset := by
        have := List.mem_takeWhile_imp (hpredef ▸ hcmem)
        simpa [hp] using this
      have hcsize : c < ia0.size := hlt_all c (hsplit ▸ List.mem_append_left _ hcmem)
      have hcf : c ≠ f := fun hq => hfmPre (hq ▸ hcmem)
      have hcsuf : c ∉ suf := fun hq => (hdisj hcmem) hq
      -- pre2 facts
      have hndPre2 : (pre2 ++ [c]).Nodup := hpre2 ▸ hndPre
      obtain ⟨hndPre2a, -, hdisj2⟩ := List.nodup_append.mp hndPre2
      have hcpre2 : c ∉ pre2 := fun hq =>
        (hdisj2 hq) (List.mem_cons_self c [])
      have hfmPre2 : f ∉ pre2 := fun hq =>
        hfmPre (hpre2 ▸ List.mem_append_left _ hq)
      -- split the pre-segment at c
      have hpreSeg2 : chainSeg arr1 r.firstInterval (pre2 ++ [c]) mid = true := by
        rw [← hpre2]
        exact hpre1
      obtain ⟨mid2, hpre2Seg, hcSeg⟩ := chainSeg_append_elim hpreSeg2
      obtain ⟨hmid2, -, hcNext⟩ := chainSeg_cons.mp hcSeg
      have hcNext2 : (aget arr1 c).next = mid := chainSeg_nil.mp hcNext
      -- relink c to the fresh node
      set arr2 := aset arr1 c { aget arr1 c with next := some f } with harr2
      have hsz2 : arr2.size = arr1.size := size_aset ..
      have hgetc2 : aget arr2 c = { aget arr1 c with next := some f } :=
        aget_aset_self _ _ _ (by rw [hsz1]; exact hcsize)
      have hother2 : ∀ j, j ≠ c → aget arr2 j = aget arr1 j := fun j hj =>
        aget_aset_other _ _ _ _ fun hq => hj hq.symm
      have hgetf2 : aget arr2 f =
          { aget ia0 f with
              begin := offset, len := b.length, next := suf.head? } := by
        rw [hother2 f (fun hq => hcf hq.symm), hgetf1]
      have hpre2Seg2 : chainSeg arr2 r.firstInterval pre2 (some c) = true := by
        rw [← hmid2]
        refine chainSeg_congr hsz2 ?_ hpre2Seg
        intro j hj
        rw [hother2 j (fun hq => hcpre2 (hq ▸ hj))]
      have hsuf2 : chainSeg arr2 mid suf none = true := by
        refine chainSeg_congr hsz2 ?_ hsuf1
        intro j hj
        rw [hother2 j (fun hq => hcsuf (hq ▸ hj))]
      have hchainC : chainSeg arr2 (aget arr2 c).next (f :: suf) none = true := by
        rw [hgetc2]
        show chainSeg arr2 (some f) (f :: suf) none = true
        refine chainSeg_cons.mpr ⟨rfl, ?_, ?_⟩
        · rw [hsz2, hsz1]
          exact hfl
        · rw [hgetf2]
          show chainSeg arr2 suf.head? suf none = true
          rw [← hmid]
          exact hsuf2
      have hw : r.write b offset =
          ReadBuffer.coalesce
            ⟨r.seq, r.firstInterval, r.buf.CopyTo b offset,
             ⟨arr2, (aget ia0 f).nextFree⟩⟩ c := by
        simp only [ReadBuffer.write, intervalAllocator.New, hfi, ← hia0,
          ← hf]
        rw [← hfi, hfs]
      rw [hw]
      unfold ReadBuffer.coalesce
      have hndC : (c :: f :: suf).Nodup := by
        refine List.nodup_cons.mpr ⟨?_, List.nodup_cons.mpr ⟨hfmSuf, hndSuf⟩⟩
        intro hq
        rcases List.mem_cons.mp hq with hq1 | hq2
        · exact hcf hq1
        · exact hcsuf hq2
      obtain ⟨m, hm, hszF, hchainF, hpairsF, hframeF⟩ :=
        coalesceLoop_spec (arr2.size + 1) ⟨arr2, (aget ia0 f).nextFree⟩ c
          (f :: suf) (by rw [hsz2, hsz1]; exact hcsize) hchainC hndC
          (by simp only [List.length_cons]; omega)
      set iaF := coalesceLoop ⟨arr2, (aget ia0 f).nextFree⟩ c (arr2.size + 1)
        with hiaF
      refine ⟨pre2 ++ c :: ((f :: suf).drop m), ?_, ?_⟩
      · have hseg1 : chainSeg iaF.intervals r.firstInterval pre2 (some c)
            = true := by
          refine chainSeg_congr (by rw [hszF]) ?_ hpre2Seg2
          intro j hj
          exact (hframeF j (fun hq => hcpre2 (hq ▸ hj))).2.2
        have hseg2 : chainSeg iaF.intervals (some c)
            (c :: ((f :: suf).drop m)) none = true := by
          refine chainSeg_cons.mpr ⟨rfl, ?_, hchainF⟩
          rw [hszF, hsz2, hsz1]
          exact hcsize
        exact chainSeg_append_intro hseg1 hseg2
      · have hgoalPairs : chainPairs iaF.intervals
            (pre2 ++ c :: ((f :: suf).drop m)) =
            chainPairs iaF.intervals pre2 ++
              ((aget iaF.intervals c).begin, (aget iaF.intervals c).len) ::
                chainPairs iaF.intervals ((f :: suf).drop m) := by
          unfold chainPairs
          rw [List.map_append, List.map_cons]
        have hpre2pairs : chainPairs iaF.intervals pre2 =
            chainPairs ia0 pre2 := by
          have s1 : chainPairs iaF.intervals pre2 = chainPairs arr2 pre2 :=
            chainPairs_congr fun j hj => by
              have h := hframeF j (fun hq => hcpre2 (hq ▸ hj))
              exact ⟨h.1, h.2.1⟩
          have s2 : chainPairs arr2 pre2 = chainPairs arr1 pre2 :=
            chainPairs_congr fun j hj => by
              rw [hother2 j (fun hq => hcpre2 (hq ▸ hj))]
              exact ⟨rfl, rfl⟩
          have s3 : chainPairs arr1 pre2 = chainPairs ia0 pre2 :=
            chainPairs_congr fun j hj => by
              rw [hother1 j (fun hq => hfmPre2 (hq ▸ hj))]
              exact ⟨rfl, rfl⟩
          rw [s1, s2, s3]
        have hsufpairs2 : chainPairs arr2 suf = chainPairs ia0 suf := by
          have s2 : chainPairs arr2 suf = chainPairs arr1 suf :=
            chainPairs_congr fun j hj => by
              rw [hother2 j (fun hq => hcsuf (hq ▸ hj))]
              exact ⟨rfl, rfl⟩
          rw [s2, hpairsSuf1]
        have hfsufpairs : chainPairs arr2 (f :: suf) =
            (offset, b.length) :: chainPairs ia0 suf := by
          show ((aget arr2 f).begin, (aget arr2 f).len) ::
            chainPairs arr2 suf = _
          rw [hgetf2, hsufpairs2]
        have hcpair : ((aget arr2 c).begin, (aget arr2 c).len) =
            ((aget ia0 c).begin, (aget ia0 c).len) := by
          rw [hgetc2]
          show ((aget arr1 c).begin, (aget arr1 c).len) = _
          rw [hother1 c hcf]
        have hjs2 : js = pre2 ++ c :: suf := by
          rw [← hsplit, hpre2, List.append_assoc, List.singleton_append]
        have hRHS : chainPairs ia0 js =
            chainPairs ia0 pre2 ++
              ((aget ia0 c).begin, (aget ia0 c).len) ::
                chainPairs ia0 suf := by
          rw [hjs2]
          unfold chainPairs
          rw [List.map_append, List.map_cons]
        have hPpre2 : ∀ q ∈ chainPairs ia0 pre2, q.1 < offset := by
          intro q hq
          simp only [chainPairs, List.mem_map] at hq
          obtain ⟨j, hj, rfl⟩ := hq
          have hjpre : j ∈ pre := hpre2 ▸ List.mem_append_left _ hj
          have := List.mem_takeWhile_imp (hpredef ▸ hjpre)
          simpa [hp] using this
        rw [hgoalPairs, hpre2pairs, hRHS,
          spliceCoalesce_eq_middle offset b.length (chainPairs ia0 pre2)
            ((aget ia0 c).begin, (aget ia0 c).len) (chainPairs ia0 suf)
            hPpre2 hclt hpairsHead]
        congr 1
        rw [← hcpair, ← hfsufpairs]
        exact hpairsF

/-- Chain indices sorted by interval begin, the shape every reachable
buffer state has (on such states the Go `int` arithmetic of `coalesce`
never goes negative, so the `Nat` model is exact). -/
def chainSorted (ia : Array interval) (js : List Nat) : Prop :=
  List.Chain' (fun i j => (aget ia i).begin ≤ (aget ia j).begin) js

end NetV

namespace NetV

/-! ## Claim C1 : ReadAndAdvance -/

/-- C1: evaluating `ReadAndAdvance` at a buffer of size 8 holding the two
written bytes `[7, 9]` at sequence 0 and consuming one byte. The code
copies the byte out and advances `seq`, but it never advances the ring
origin (`buf.start` stays 0) and it INCREMENTS the interval offset
(the interval becomes `(begin 1, len 2)` instead of `(0, 1)`), so the
following `Available()` reports 0 instead of the 1 remaining byte and
`Next()` regresses from 2 to 1 — contradicting both the claim and the
function's own doc comment ("advances the beginning of r to the first byte
not read into b"). -/
theorem c1_read_and_advance_bug :
    (((NewReadBuffer 8 0).Write [7, 9] 0).2.Available = 2) ∧
    (((NewReadBuffer 8 0).Write [7, 9] 0).2.Next = 2) ∧
    ((((NewReadBuffer 8 0).Write [7, 9] 0).2.ReadAndAdvance 1).1 = [7]) ∧
    ((((NewReadBuffer 8 0).Write [7, 9] 0).2.ReadAndAdvance 1).2.seq = 1) ∧
    ((((NewReadBuffer 8 0).Write [7, 9] 0).2.ReadAndAdvance 1).2.buf.start
      = 0) ∧
    ((((NewReadBuffer 8 0).Write [7, 9] 0).2.ReadAndAdvance 1).2.chainList
      = [(1, 2)]) ∧
    ((((NewReadBuffer 8 0).Write [7, 9] 0).2.ReadAndAdvance 1).2.Available
      = 0) ∧
    ((((NewReadBuffer 8 0).Write [7, 9] 0).2.ReadAndAdvance 1).2.Next = 1) := by
  decide

/-! ## Claim C2 : write splicing and coalescing -/

/-- C2 counterexample: after writing one byte each at sequences 0 and 3
(buffer size 16, base 0), the chain is `[(0,1), (3,1)]`. Writing one byte
at sequence 2 gives `[(0,1), (2,1), (3,1)]`: the new interval `(2,1)`
touches its right-hand neighbor (`2 + 1 ≥ 3`) yet is NOT coalesced,
because the code coalesces starting from the left neighbor `(0,1)`, which
does not reach offset 2, and stops at that gap. The claim's rule predicts
`[(0,1), (2,2)]`. -/
theorem c2_counterexample :
    ((((NewReadBuffer 16 0).Write [7] 0).2.Write [7] 3).2.chainList
      = [(0, 1), (3, 1)]) ∧
    (((((NewReadBuffer 16 0).Write [7] 0).2.Write [7] 3).2.Write [7] 2).2.chainList
      = [(0, 1), (2, 1), (3, 1)]) ∧
    (spliceCoalesceClaim 2 1 [(0, 1), (3, 1)] = [(0, 1), (2, 2)]) ∧
    (((((NewReadBuffer 16 0).Write [7] 0).2.Write [7] 3).2.Write [7] 2).2.chainList
      ≠ spliceCoalesceClaim 2 1
          ((((NewReadBuffer 16 0).Write [7] 0).2.Write [7] 3).2.chainList)) := by
  refine ⟨by decide, by decide, by decide, by decide⟩

set_option maxRecDepth 400000 in
/-- C2 amended: (1) the spec's literal scenario holds — a size-1024 buffer
at base sequence 0, after writes of 3@1, 1@0, 3@10, 3@6, 1@9, 1@5, 1@4,
has `next() = 13` and a single interval covering [0, 13); (2) in general,
every write splices its interval into the list in offset order and then
coalesces starting from the spliced interval's LEFT neighbor (from the new
interval itself when it is first), merging right-hand neighbors with merged
length `max(length, (neighbor.offset − offset) + neighbor.length)` and
stopping at the first gap — so when the left neighbor does not reach the
new interval, the new interval is not merged with its own right-hand
neighbors (`spliceCoalesce` is that description). -/
theorem c2_write_splices_and_coalesces :
    (((((((((NewReadBuffer 1024 0).Write (List.replicate 3 0) 1).2.Write
        (List.replicate 1 0) 0).2.Write (List.replicate 3 0) 10).2.Write
        (List.replicate 3 0) 6).2.Write (List.replicate 1 0) 9).2.Write
        (List.replicate 1 0) 5).2.Write (List.replicate 1 0) 4).2.Next = 13 ∧
     ((((((((NewReadBuffer 1024 0).Write (List.replicate 3 0) 1).2.Write
        (List.replicate 1 0) 0).2.Write (List.replicate 3 0) 10).2.Write
        (List.replicate 3 0) 6).2.Write (List.replicate 1 0) 9).2.Write
        (List.replicate 1 0) 5).2.Write (List.replicate 1 0) 4).2.chainList
        = [(0, 13)]) ∧
    (∀ (r : ReadBuffer) (b : List Nat) (offset : Nat) (js : List Nat),
      isChain r.intervals.intervals r.firstInterval js = true →
      js.Nodup →
      chainSorted r.intervals.intervals js →
      r.intervals.firstFree < r.intervals.intervals.size →
      r.intervals.firstFree ∉ js →
      ∃ js2,
        isChain (r.write b offset).intervals.intervals
          (r.write b offset).firstInterval js2 = true ∧
        chainPairs (r.write b offset).intervals.intervals js2 =
          spliceCoalesce offset b.length
            (chainPairs r.intervals.intervals js)) := by
  refine ⟨by decide, ?_⟩
  intro r b offset js h1 h2 _ h4 h5
  exact write_refines r b offset js h1 h2 h4 h5

/-- C2 witness: the general clause applied to the empty size-8 buffer,
writing one byte at offset 1. -/
theorem c2_write_splices_and_coalesces_witness :
    ∃ js2,
      isChain ((NewReadBuffer 8 0).write [7] 1).intervals.intervals
        ((NewReadBuffer 8 0).write [7] 1).firstInterval js2 = true ∧
      chainPairs ((NewReadBuffer 8 0).write [7] 1).intervals.intervals js2 =
        spliceCoalesce 1 1
          (chainPairs (NewReadBuffer 8 0).intervals.intervals []) :=
  c2_write_splices_and_coalesces.2 (NewReadBuffer 8 0) [7] 1 []
    (by decide) (by decide) List.chain'_nil (by decide) (by decide)

/-! ## Claim C6 : subnet Equal vs Has -/

/-- C6 counterexample: two subnets whose addresses carry bits outside the
netmask. `Equal` masks both addresses, so it holds; but `Has` compares the
masked argument with the UNMASKED subnet address, so `a.Has b.Addr` fails.
The claimed equivalence `Equal a b ↔ Has a b.Addr ∧ Has b a.Addr ∧ masks
equal` is therefore false at this input. -/
theorem c6_counterexample :
    (IPv4Subnet.Equal ⟨⟨1, 0, 0, 1⟩, ⟨255, 0, 0, 0⟩⟩ ⟨⟨1, 0, 0, 2⟩, ⟨255, 0, 0, 0⟩⟩
        = true) ∧
    (IPv4Subnet.Has ⟨⟨1, 0, 0, 1⟩, ⟨255, 0, 0, 0⟩⟩ ⟨1, 0, 0, 2⟩ = false) := by
  decide

/-- C6 amended: for subnets in canonical form (no address bits outside the
netmask), `subnet_equal(a, b)` holds iff `subnet_has(a, b.address)`,
`subnet_has(b, a.address)` and the netmasks agree. -/
theorem c6_equal_iff_has (a b : IPv4Subnet)
    (ha : maskAddr a.Addr a.Netmask = a.Addr)
    (hb : maskAddr b.Addr b.Netmask = b.Addr) :
    a.Equal b = true ↔
      (a.Has b.Addr = true ∧ b.Has a.Addr = true ∧ a.Netmask = b.Netmask) := by
  have hEq : a.Equal b = true ↔
      a.Netmask = b.Netmask ∧
        maskAddr a.Addr a.Netmask = maskAddr b.Addr b.Netmask := by
    unfold IPv4Subnet.Equal
    by_cases hm : a.Netmask = b.Netmask <;> simp [hm]
  have hHasA : a.Has b.Addr = true ↔ maskAddr b.Addr a.Netmask = a.Addr := by
    unfold IPv4Subnet.Has; simp
  have hHasB : b.Has a.Addr = true ↔ maskAddr a.Addr b.Netmask = b.Addr := by
    unfold IPv4Subnet.Has; simp
  rw [hEq, hHasA, hHasB]
  constructor
  · rintro ⟨hm, he⟩
    have hab : a.Addr = b.Addr := by rw [← ha, he, hb]
    exact ⟨by rw [hm, hb, hab], by rw [← hm, ha, hab], hm⟩
  · rintro ⟨h1, _, hm⟩
    have hab : b.Addr = a.Addr := by rw [← h1, hm, hb]
    exact ⟨hm, by rw [ha, hb, hab]⟩

/-! ## Claim C5 : TCP header marshal / parse round trip -/

/-- C5 counterexample: a header with only the NS flag set (`flags = 0x100`).
The writer stores NS in bit 0 of byte 12 (`uint8(flags >> 8)`), but the
parser reinjects that bit at position 7 (`flags(b[0]&1) << 7`), which is the
CWR position. Parsing the marshalled bytes yields CWR (`0x80`) instead of
NS, so `parse(marshal(h)) = h` fails even though checksum and MSS are both
zero / unset. -/
theorem c5_counterexample :
    (parseTCPIPv4Header
        (writeTCPIPv4Header
          { srcport := 0, dstport := 0, seq := 0, ack := 0, dataOff := 5,
            flags := 256, window := 0, checksum := 0, urgptr := 0,
            mss := 0, mssSet := false }).2 ≠
      .ok ({ srcport := 0, dstport := 0, seq := 0, ack := 0, dataOff := 5,
             flags := 256, window := 0, checksum := 0, urgptr := 0,
             mss := 0, mssSet := false }, 20)) ∧
    parseTCPIPv4Header
        (writeTCPIPv4Header
          { srcport := 0, dstport := 0, seq := 0, ack := 0, dataOff := 5,
            flags := 256, window := 0, checksum := 0, urgptr := 0,
            mss := 0, mssSet := false }).2 =
      .ok ({ srcport := 0, dstport := 0, seq := 0, ack := 0, dataOff := 5,
             flags := 128, window := 0, checksum := 0, urgptr := 0,
             mss := 0, mssSet := false }, 20) := by
  decide

/-- C5 amended: for every TCP header whose NS flag is clear (`flags < 0x100`)
and whose fields are in range, parsing the marshalled bytes returns exactly
the header the writer produced (the writer overwrites `dataOff` with 5, or 6
when MSS is set), with `mss` zeroed when unset. With NS set the round trip
fails as in the counterexample. -/
theorem c5_roundtrip (hdr : TcpIPv4Header)
    (hsp : hdr.srcport < 65536) (hdp : hdr.dstport < 65536)
    (hsq : hdr.seq < 4294967296) (hak : hdr.ack < 4294967296)
    (hfl : hdr.flags < 256) (hw : hdr.window < 65536)
    (hck : hdr.checksum < 65536) (hup : hdr.urgptr < 65536)
    (hm : hdr.mss < 65536) :
    parseTCPIPv4Header (writeTCPIPv4Header hdr).2 =
      .ok ({ hdr with
              dataOff := if hdr.mssSet then 6 else 5,
              mss := if hdr.mssSet then hdr.mss else 0 },
           if hdr.mssSet then 24 else 20) := by
  obtain ⟨sp, dp, sq, ak, d0, fl, w, ck, up, m, ms⟩ := hdr
  simp only at hsp hdp hsq hak hfl hw hck hup hm
  have hfl8 : fl >>> 8 = 0 := by
    simp only [Nat.shiftRight_eq_div_pow]
    omega
  have e16 : ∀ n : Nat, n < 65536 → (n >>> 8) % 256 * 256 + n % 256 = n := by
    intro n h
    simp only [Nat.shiftRight_eq_div_pow]
    omega
  have e32 : ∀ n : Nat, n < 4294967296 →
      (((n >>> 24) % 256 * 256 + (n >>> 16) % 256) * 256 + (n >>> 8) % 256)
        * 256 + n % 256 = n := by
    intro n h
    simp only [Nat.shiftRight_eq_div_pow]
    omega
  cases ms <;>
    simp only [writeTCPIPv4Header, putUint16, putUint32, hfl8,
      Bool.false_eq_true, if_false, if_true, List.cons_append,
      List.nil_append, parseTCPIPv4Header, List.length_cons,
      List.length_nil, parseOptions, getByte, getUint16, skipBytes,
      optionTypeEnd, optionTypeNOP, optionTypeMSS] <;>
    simp [e16, e32, hsp, hdp, hsq, hak, hw, hck, hup, hm,
      Nat.mod_eq_of_lt hfl]

/-- C5 witness: the amended round trip applied at a concrete header with all
eight low flags set and the MSS option present. -/
theorem c5_roundtrip_witness :
    parseTCPIPv4Header
        (writeTCPIPv4Header
          { srcport := 80, dstport := 49152, seq := 1000, ack := 2000,
            dataOff := 0, flags := 255, window := 512, checksum := 7,
            urgptr := 9, mss := 1460, mssSet := true }).2 =
      .ok ({ srcport := 80, dstport := 49152, seq := 1000, ack := 2000,
             dataOff := 6, flags := 255, window := 512, checksum := 7,
             urgptr := 9, mss := 1460, mssSet := true }, 24) := by
  have h := c5_roundtrip
    { srcport := 80, dstport := 49152, seq := 1000, ack := 2000,
      dataOff := 0, flags := 255, window := 512, checksum := 7,
      urgptr := 9, mss := 1460, mssSet := true }
    (by decide) (by decide) (by decide) (by decide) (by decide)
    (by decide) (by decide) (by decide) (by decide)
  simpa using h

/-! ## Claim C9 : unknown TCP options -/

/-- C9: the option parser "skips" an unknown option via
`parse.GetBytes(&b, 2-olen)`, with the operands of the subtraction reversed.
For a well-formed unknown option of length 3 (here kind 3, as in window
scale), `2 - olen = -1`, the Go slice expression panics, the deferred
`recover` fires, and the whole parse returns the "malformed options" error
instead of the parsed header. A 2-byte unknown option (so `2 - olen = 0`)
still parses, confirming that only the skip distance is wrong. The input is
a well-formed 24-byte header: data offset 6, options `[3, 3, 0, 0]`
(a 3-byte option of kind 3 followed by end-of-options). -/
theorem c9_unknown_option_errors :
    (parseTCPIPv4Header
        [0, 80, 0, 90, 0, 0, 0, 1, 0, 0, 0, 2, 192, 0, 1, 0, 0, 0, 0, 0,
         3, 3, 0, 0] =
      .error "malformed options") ∧
    (parseTCPIPv4Header
        [0, 80, 0, 90, 0, 0, 0, 1, 0, 0, 0, 2, 192, 0, 1, 0, 0, 0, 0, 0,
         4, 2, 0, 0] =
      .ok ({ srcport := 80, dstport := 90, seq := 1, ack := 2, dataOff := 6,
             flags := 0, window := 256, checksum := 0, urgptr := 0,
             mss := 0, mssSet := false }, 24)) := by
  decide

/-! ## Claim C8 : forwarding decrements the TTL byte in place -/

/-- C8: for a parsed, consistent, non-local datagram with forwarding on:
hop count 0 or 1 drops with no device write; hop count 2 or more re-emits
the buffer with only byte 8 (the TTL) changed, to the next hop and device
found by the routing lookup, and drops when the lookup fails. The last
conjunct pins down "decremented in place": the emitted buffer is `b.set 8
(TTL - 1)`, which has the same length, agrees with `b` everywhere except
index 8, and carries `TTL - 1` there (so TTL 2 goes out as exactly 1). -/
theorem c8_forwarding (host : Ipv4HostState) (b : List Nat) (hdr : Ipv4Header)
    (hparse : readIPv4Header b = some hdr)
    (hlen20 : 20 ≤ b.length)
    (hlen : hdr.len = b.length)
    (hus : isLocal host hdr.dst = false)
    (hfwd : host.forward = true) :
    (hdr.TTL < 2 → ipv4Callback host b = .drop) ∧
    (2 ≤ hdr.TTL →
      ipv4Callback host b =
        match rtLookup host.routes host.deviceRoutes hdr.dst with
        | none => .drop
        | some (nexthop, dev) => .write dev (b.set 8 (hdr.TTL - 1)) nexthop) ∧
    (b.set 8 (hdr.TTL - 1)).length = b.length ∧
    (∀ i, i ≠ 8 → (b.set 8 (hdr.TTL - 1))[i]? = b[i]?) ∧
    (b.set 8 (hdr.TTL - 1))[8]? = some (hdr.TTL - 1) := by
  have hnl : ¬ b.length < 20 := by omega
  refine ⟨?_, ?_, ?_, ?_, ?_⟩
  · intro h2
    simp [ipv4Callback, hnl, hparse, hlen, hus, hfwd, h2]
  · intro h2
    have hnt : ¬ hdr.TTL < 2 := by omega
    simp [ipv4Callback, hnl, hparse, hlen, hus, hfwd, hnt, setTTL]
  · simp
  · intro i hi
    rw [List.getElem?_set_ne (by omega)]
  · rw [List.getElem?_set_self (by omega)]

/-- C8 witness: a host with device 1 owning 10.0.0.2/24, a device route
10.0.1.0/24 via device 2, forwarding on; a 20-byte datagram to 10.0.1.5
with TTL 2 goes out on device 2 with byte 8 equal to 1 and every other byte
unchanged. -/
theorem c8_forwarding_witness :
    ipv4Callback
      { devices := [(1, some (⟨10, 0, 0, 2⟩, ⟨255, 255, 255, 0⟩))],
        callbacks := [], forward := true, routes := [],
        deviceRoutes := [(⟨⟨10, 0, 1, 0⟩, ⟨255, 255, 255, 0⟩⟩, 2)] }
      [69, 0, 0, 20, 0, 0, 0, 0, 2, 17, 0, 0, 10, 0, 0, 1, 10, 0, 1, 5] =
    .write 2 [69, 0, 0, 20, 0, 0, 0, 0, 1, 17, 0, 0, 10, 0, 0, 1, 10, 0, 1, 5]
      ⟨10, 0, 1, 5⟩ := by
  have h := (c8_forwarding
    { devices := [(1, some (⟨10, 0, 0, 2⟩, ⟨255, 255, 255, 0⟩))],
      callbacks := [], forward := true, routes := [],
      deviceRoutes := [(⟨⟨10, 0, 1, 0⟩, ⟨255, 255, 255, 0⟩⟩, 2)] }
    [69, 0, 0, 20, 0, 0, 0, 0, 2, 17, 0, 0, 10, 0, 0, 1, 10, 0, 1, 5]
    _ rfl (by decide) (by decide) (by decide) rfl).2.1 (by decide)
  exact h.trans (by decide)

/-! ## Claim C3 : listener re-check after the lock upgrade -/

/-- C3: when the four-tuple misses both times and the listener that was
present under the shared lock is gone at the exclusive re-check, `handle`
does NOT drop the segment: the `if !ok` block at part_007 lines 95-103
unlocks but has no `return`, so control falls through to
`listener.accept(c)` with a nil `listener` and the handler panics (modelled
by `HandleStep.nilListenerPanic`). -/
theorem c3_listener_recheck_panics (stR stW : TcpHostState) (four : FourTuple)
    (newConn : Nat)
    (h1 : alistFind four stR.conns = none)
    (h2 : (alistFind (twoOf four) stR.listeners).isSome)
    (h3 : alistFind four stW.conns = none)
    (h4 : alistFind (twoOf four) stW.listeners = none) :
    handleOnce stR stW four newConn = .nilListenerPanic := by
  obtain ⟨l, hl⟩ := Option.isSome_iff_exists.mp h2
  simp [handleOnce, h1, h3, h4, hl]

/-- C3 witness: a listener on 10.0.0.2:80 closes between the shared-lock
check and the exclusive re-check; the dispatch of a SYN from 10.0.0.1:5000
hits the nil-listener path. -/
theorem c3_listener_recheck_panics_witness :
    handleOnce
      ⟨[], [(⟨⟨10, 0, 0, 2⟩, 80⟩, ⟨[]⟩)]⟩
      ⟨[], []⟩
      ⟨⟨10, 0, 0, 1⟩, 5000, ⟨10, 0, 0, 2⟩, 80⟩ 0 = .nilListenerPanic :=
  c3_listener_recheck_panics
    ⟨[], [(⟨⟨10, 0, 0, 2⟩, 80⟩, ⟨[]⟩)]⟩ ⟨[], []⟩
    ⟨⟨10, 0, 0, 1⟩, 5000, ⟨10, 0, 0, 2⟩, 80⟩ 0
    (by decide) (by decide) (by decide) (by decide)

/-! ## Claim C7 : listener backpressure -/

/-- The i-th distinct SYN of the backpressure scenario: distinct source
ports, one listener two-tuple 10.0.0.2:80. -/
def synTuple (i : Nat) : FourTuple :=
  ⟨⟨10, 0, 0, 1⟩, i, ⟨10, 0, 0, 2⟩, 80⟩

/-- The scenario listener's two-tuple. -/
def lTwo : TwoTuple := ⟨⟨10, 0, 0, 2⟩, 80⟩

/-- Initial host state: one open listener with an empty accept queue. -/
def backpressureInit : TcpHostState := ⟨[], [(lTwo, ⟨[]⟩)]⟩

lemma handleSeq_succ (fuel : Nat) (st : TcpHostState) (four : FourTuple)
    (nc : Nat) :
    handleSeq (fuel + 1) st four nc =
      match handleOnce st st four nc with
      | .restart st2 => handleSeq fuel st2 four nc
      | r => r := rfl

lemma handleOnce_nil_statefn (st st2 : TcpHostState) (four : FourTuple)
    (c : ConnVal) (nc : Nat) (h : alistFind four st.conns = some c)
    (hs : c.statefnSet = false) :
    handleOnce st st2 four nc = .nilStatefnPanic := by
  unfold handleOnce
  rw [h]
  simp [hs]

lemma handleOnce_accepts (st : TcpHostState) (four : FourTuple) (nc : Nat)
    (l : ListenerState)
    (h1 : alistFind four st.conns = none)
    (h2 : alistFind (twoOf four) st.listeners = some l)
    (h3 : ¬ listenQueueLen ≤ l.conns.length) :
    handleOnce st st four nc =
      .restart ⟨(four, ⟨nc, false⟩) :: st.conns,
                alistSet (twoOf four) ⟨l.conns ++ [nc]⟩ st.listeners⟩ := by
  unfold handleOnce listenerAccept
  rw [h1, h2]
  simp [h3]

lemma handleOnce_full (st : TcpHostState) (four : FourTuple) (nc : Nat)
    (l : ListenerState)
    (h1 : alistFind four st.conns = none)
    (h2 : alistFind (twoOf four) st.listeners = some l)
    (h3 : listenQueueLen ≤ l.conns.length) :
    handleOnce st st four nc = .dropQueueFull st := by
  unfold handleOnce listenerAccept
  rw [h1, h2]
  simp [h3]

lemma alistFind_cons_self (k : α) [DecidableEq α] (v : β)
    (m : List (α × β)) : alistFind k ((k, v) :: m) = some v := by
  simp [alistFind]

/-- C7: the per-step parts of the claim hold: (1) `accept` rejects exactly
when the queue holds 1024 connections; (2) a successful `accept` grows the
queue by one and never past 1024; (3) with a full queue the dispatcher drops
the segment and leaves the host maps untouched. But the claimed scenario is
unreachable: (4) whenever the four-tuple is new and the listener's queue has
room, the accepted connection is the `&Conn{}` of part_007 line 106, whose
nil `statefn` the restarted dispatch invokes through `conn.callback`
(conn.go line 80) — a nil-function-call runtime panic on the FIRST accepted
SYN; (5) in particular the scenario's first SYN already panics, so the state
with 1024 connections queued and mapped that the claim asserts after 1025
SYNs is never reached. -/
theorem c7_listener_backpressure_panics :
    (∀ (l : ListenerState) (c : Nat),
        listenerAccept l c = none ↔ 1024 ≤ l.conns.length) ∧
    (∀ (l : ListenerState) (c : Nat) (l2 : ListenerState),
        listenerAccept l c = some l2 →
          l2.conns.length = l.conns.length + 1 ∧ l2.conns.length ≤ 1024) ∧
    (∀ (st : TcpHostState) (four : FourTuple) (newConn : Nat)
        (l : ListenerState),
        alistFind four st.conns = none →
        alistFind (twoOf four) st.listeners = some l →
        1024 ≤ l.conns.length →
        handleSeq 2 st four newConn = .dropQueueFull st) ∧
    (∀ (st : TcpHostState) (four : FourTuple) (newConn : Nat)
        (l : ListenerState),
        alistFind four st.conns = none →
        alistFind (twoOf four) st.listeners = some l →
        l.conns.length < 1024 →
        handleSeq 2 st four newConn = .nilStatefnPanic) ∧
    handleSeq 2 backpressureInit (synTuple 0) 0 = .nilStatefnPanic := by
  have hfull : ∀ (l : ListenerState) (c : Nat),
      listenerAccept l c = none ↔ 1024 ≤ l.conns.length := by
    intro l c
    unfold listenerAccept listenQueueLen
    by_cases h : 1024 ≤ l.conns.length
    · rw [if_pos h]
      simp [h]
    · rw [if_neg h]
      simp [h]
  have hdrop : ∀ (st : TcpHostState) (four : FourTuple) (newConn : Nat)
      (l : ListenerState),
      alistFind four st.conns = none →
      alistFind (twoOf four) st.listeners = some l →
      1024 ≤ l.conns.length →
      handleSeq 2 st four newConn = .dropQueueFull st := by
    intro st four newConn l h1 h2 h3
    rw [handleSeq_succ, handleOnce_full st four newConn l h1 h2 h3]
  have hpanic : ∀ (st : TcpHostState) (four : FourTuple) (newConn : Nat)
      (l : ListenerState),
      alistFind four st.conns = none →
      alistFind (twoOf four) st.listeners = some l →
      l.conns.length < 1024 →
      handleSeq 2 st four newConn = .nilStatefnPanic := by
    intro st four nc l h1 h2 h3
    have h3' : ¬ listenQueueLen ≤ l.conns.length := by
      simp only [listenQueueLen]
      omega
    rw [handleSeq_succ, handleOnce_accepts st four nc l h1 h2 h3']
    show handleSeq 1 ⟨(four, ⟨nc, false⟩) :: st.conns,
      alistSet (twoOf four) ⟨l.conns ++ [nc]⟩ st.listeners⟩ four nc = _
    have hf : alistFind four
        ((⟨(four, ⟨nc, false⟩) :: st.conns,
          alistSet (twoOf four) ⟨l.conns ++ [nc]⟩ st.listeners⟩ :
            TcpHostState)).conns = some ⟨nc, false⟩ :=
      alistFind_cons_self four ⟨nc, false⟩ st.conns
    rw [handleSeq_succ, handleOnce_nil_statefn _ _ _ _ nc hf rfl]
  refine ⟨hfull, ?_, hdrop, hpanic, ?_⟩
  · intro l c l2 h
    unfold listenerAccept listenQueueLen at h
    by_cases hb : 1024 ≤ l.conns.length
    · rw [if_pos hb] at h
      exact absurd h (by simp)
    · rw [if_neg hb] at h
      have h2 : l2 = ⟨l.conns ++ [c]⟩ := by
        injection h with h
        exact h.symm
      subst h2
      constructor
      · simp
      · simp only [List.length_append, List.length_singleton]
        omega
  · exact hpanic backpressureInit (synTuple 0) 0 ⟨[]⟩
      (by decide) (by decide) (by decide)

/-- C7 witness: the rejection criterion applied at a concrete full queue,
and the first-SYN panic at a concrete new connection id. -/
theorem c7_listener_backpressure_panics_witness :
    listenerAccept ⟨List.replicate 1024 0⟩ 5 = none ∧
    handleSeq 2 backpressureInit (synTuple 0) 7 = .nilStatefnPanic :=
  ⟨(c7_listener_backpressure_panics.1 ⟨List.replicate 1024 0⟩ 5).mpr
      (le_of_eq (List.length_replicate 1024 0).symm),
   c7_listener_backpressure_panics.2.2.2.1 backpressureInit (synTuple 0) 7
      ⟨[]⟩ (by decide) (by decide) (by decide)⟩

/-! ## Claim C4 : set_read_deadline on a fresh connection -/

/-- C4: on a connection on which no read deadline was ever set,
`rdhandle` is nil, and `setReadDeadline` dereferences it through
`c.rdhandle.Cancel()` before the nil check it would need: the call panics
(`none`) instead of completing. On a connection that does hold a handle the
same call completes, stores `t`, marks the old record cancelled, and
enqueues a fresh handle. -/
theorem c4_set_read_deadline_fresh_panics :
    (setReadDeadline ⟨0, none, ⟨[], 0⟩⟩ 5 = none) ∧
    (setReadDeadline ⟨7, some 0, ⟨[⟨0, 7, false, .readCB⟩], 1⟩⟩ 5 =
      some ⟨5, some 1,
        ⟨[⟨0, 7, true, .readCB⟩, ⟨1, 5, false, .readCB⟩], 2⟩⟩) := by
  constructor
  · rfl
  · rfl

/-! ## Claim C10 : heapTimeouts.Pop bounds -/

/-- C10: for every non-empty heap (and in fact for every heap),
`heapTimeouts.Pop` in tcp/timeout.go reads `(*h)[len(*h)]`, one past the
end of the slice, so the access is out of bounds and the daemon's
peek-then-pop panics instead of returning the earliest record. The claimed
read at index `n-1` is in bounds, confirming the off-by-one. -/
theorem c10_heap_pop_out_of_bounds (h : List TimeoutRec)
    (hne : 1 ≤ h.length) :
    heapTimeoutsPop h = none ∧ h[h.length]? = none ∧
      (h[h.length - 1]?).isSome := by
  refine ⟨?_, ?_, ?_⟩
  · unfold heapTimeoutsPop
    rw [List.getElem?_eq_none le_rfl]
  · exact List.getElem?_eq_none le_rfl
  · rw [List.getElem?_eq_getElem (by omega)]
    rfl

/-- C10 witness: a heap holding a single record. -/
theorem c10_heap_pop_out_of_bounds_witness :
    heapTimeoutsPop [⟨0, 3, false, .readCB⟩] = none :=
  (c10_heap_pop_out_of_bounds [⟨0, 3, false, .readCB⟩] (by decide)).1

/-- C6 witness: the amended equivalence applied at a concrete canonical
subnet. -/
theorem c6_equal_iff_has_witness :
    IPv4Subnet.Equal ⟨⟨10, 0, 0, 0⟩, ⟨255, 0, 0, 0⟩⟩
      ⟨⟨10, 0, 0, 0⟩, ⟨255, 0, 0, 0⟩⟩ = true :=
  (c6_equal_iff_has ⟨⟨10, 0, 0, 0⟩, ⟨255, 0, 0, 0⟩⟩
      ⟨⟨10, 0, 0, 0⟩, ⟨255, 0, 0, 0⟩⟩ (by decide) (by decide)).mpr
    ⟨by decide, by decide, rfl⟩

end NetV
